import Mathlib

/-!
A verification development of the `Song` timeline and plugin model of the
tuneflow repository (`src/models/song.ts`, `src/base_plugin.ts`).

Embedding conventions:
* Tick values and the song resolution (PPQ) are natural numbers; the data
  model declares them integers (ticks ≥ 0, resolution ≥ 1, unset = 0).
* BPM values and derived times are exact rationals standing for the source's
  IEEE doubles; `Math.round` is `round` (both compute ⌊x + 1/2⌋).
* Thrown exceptions become `Except SongError`; every modelled failure path in
  the source throws before mutating the song.
* The `binary-search-bounds` helpers `ge`/`lt` are embedded by their
  contracts on the (always sorted) sequences they are applied to: `geIndex`
  is the first index whose tick is ≥ the probe, `lastIdxP` the last index
  satisfying a predicate (`lt` by ticks resp. by times).
* JavaScript's stable `Array#sort` is embedded as `List.insertionSort`,
  which is also stable.
-/

/-- Modelled from the spec: `TempoEvent` (its class file `models/tempo.ts` is
not among the provided sources).  Attributes per the data model: tick
(integer ≥ 0), tempo in beats-per-minute, derived absolute time in seconds. -/
structure TempoEvent where
  ticks : ℕ
  bpm : ℚ
  time : ℚ
  deriving DecidableEq, Repr

/-- Modelled from the spec: `TimeSignatureEvent` (its class file
`models/time_signature.ts` is not among the provided sources). -/
structure TimeSignatureEvent where
  ticks : ℕ
  numerator : ℕ
  denominator : ℕ
  deriving DecidableEq, Repr

/-- Track type: MIDI-bearing vs audio-bearing. -/
inductive TrackType where
  | midi
  | audio
  deriving DecidableEq, Repr

/-- Modelled from the spec: the `Track` fields the claims touch (its class
file `models/track.ts` is not among the provided sources): unique identifier,
type, display rank.  Mixer/clip state is irrelevant to every claim. -/
structure Track where
  uuid : String
  trackType : TrackType
  rank : ℕ
  deriving DecidableEq, Repr

/-- Modelled from the spec: `SongAccess` (declared in the missing
`descriptors.ts`): the capability set a plugin declares, including at least
`createTrack` and `removeTrack`; absent fields read as `false`. -/
structure SongAccess where
  createTrack : Bool := false
  removeTrack : Bool := false
  deriving DecidableEq, Repr

/-- The plugin state the core reads (`base_plugin.ts`): the static class id
(`providerId.pluginId`), the declared capability set (`songAccess()`), and the
pool of previously minted track ids (`generatedTrackIdsInternal`). -/
structure TuneflowPlugin where
  id : String
  access : SongAccess
  generatedTrackIdsInternal : List String
  deriving DecidableEq, Repr

/-- Per-run plugin execution context (`song.ts`, interface `PluginContext`). -/
structure PluginContext where
  plugin : TuneflowPlugin
  numTracksCreatedByPlugin : ℕ
  deriving DecidableEq, Repr

/-- The `Song` fields the claims touch (`song.ts`). -/
structure Song where
  tracks : List Track
  PPQ : ℕ
  tempos : List TempoEvent
  timeSignatures : List TimeSignatureEvent
  pluginContext : Option PluginContext
  nextTrackRank : ℕ
  deriving DecidableEq, Repr

/-- The errors the modelled operations throw, one constructor per `throw`
site in the source. -/
inductive SongError where
  /-- "Song needs to be accessed in a plugin context in order to use
  privileged methods." -/
  | noPluginContext
  /-- "Plugin ... requires access ... in order to run." -/
  | missingAccess (pluginId : String) (accessName : String)
  /-- "Song resolution must be provided before creating tempo changes." -/
  | resolutionNotSet
  /-- "The first tempo event must be at tick 0" -/
  | firstTempoMustBeZero
  /-- "Cannot clear all the tempo events." -/
  | cannotClearTempoEvents
  /-- "The first tempo event needs to start from tick 0" -/
  | firstTempoNeedsStartZero
  /-- "Plugin generated track ids out of sync." -/
  | trackIdsOutOfSync
  deriving DecidableEq, Repr

/-- The fresh `Song` produced by the constructor. -/
def Song.empty : Song :=
  { tracks := [], PPQ := 0, tempos := [], timeSignatures := [],
    pluginContext := none, nextTrackRank := 1 }

/-- Last index whose element satisfies `p`, or `none`.  On a list sorted for
the probe this is the contract of `binary-search-bounds`' `lt`. -/
def lastIdxP (p : TempoEvent → Bool) : List TempoEvent → Option ℕ
  | [] => none
  | e :: rest =>
    match lastIdxP p rest with
    | some i => some (i + 1)
    | none => if p e then some 0 else none

/-- First index whose tick is ≥ `tick` (length if none).  On a sorted list
this is the contract of `binary-search-bounds`' `ge` used by
`createTempoChange`. -/
def geIndex (tick : ℕ) : List TempoEvent → ℕ
  | [] => 0
  | e :: rest => if tick ≤ e.ticks then 0 else geIndex tick rest + 1

/-- Ordering of tempo events by tick, the comparator
`(a, b) => a.getTicks() - b.getTicks()` of the source. -/
def ticksLE (a b : TempoEvent) : Prop := a.ticks ≤ b.ticks

instance : DecidableRel ticksLE := fun a b => inferInstanceAs (Decidable (a.ticks ≤ b.ticks))

instance : IsTotal TempoEvent ticksLE := ⟨fun a b => Nat.le_total a.ticks b.ticks⟩

instance : IsTrans TempoEvent ticksLE := ⟨fun _ _ _ h h' => Nat.le_trans h h'⟩

/-- JavaScript's stable `Array#sort` with the tick comparator. -/
def sortByTicks (l : List TempoEvent) : List TempoEvent := List.insertionSort ticksLE l

/-- `tempoBPMToTicksPerSecond` (`song.ts`): `(tempoBPM * PPQ) / 60`. -/
def tempoBPMToTicksPerSecond (tempoBPM : ℚ) (PPQ : ℚ) : ℚ := tempoBPM * PPQ / 60

/-- `Song.tickToSecondsImpl` (`song.ts`).  The `none` arm corresponds to the
source dereferencing `undefined` (only reachable on an empty sequence). -/
def tickToSecondsImpl (tick : ℕ) (tempos : List TempoEvent) (resolution : ℚ) : ℚ :=
  if tick = 0 then 0
  else
    let baseTempoIndex := (lastIdxP (fun e => decide (e.ticks < tick)) tempos).getD 0
    match tempos[baseTempoIndex]? with
    | none => 0
    | some baseTempoChange =>
      baseTempoChange.time +
        ((tick : ℚ) - (baseTempoChange.ticks : ℚ)) /
          tempoBPMToTicksPerSecond baseTempoChange.bpm resolution

/-- `Song#tickToSeconds`. -/
def Song.tickToSeconds (s : Song) (tick : ℕ) : ℚ :=
  tickToSecondsImpl tick s.tempos (s.PPQ : ℚ)

/-- `Song#secondsToTick` (`song.ts`): locate the last tempo event whose time
is strictly before `seconds`, extrapolate at its BPM, round to nearest tick. -/
def secondsToTickImpl (seconds : ℚ) (tempos : List TempoEvent) (resolution : ℚ) : ℤ :=
  if seconds = 0 then 0
  else
    let baseTempoIndex := (lastIdxP (fun e => decide (e.time < seconds)) tempos).getD 0
    match tempos[baseTempoIndex]? with
    | none => 0
    | some baseTempoChange =>
      round ((baseTempoChange.ticks : ℚ) +
        (seconds - baseTempoChange.time) *
          tempoBPMToTicksPerSecond baseTempoChange.bpm resolution)

/-- `Song#secondsToTick`. -/
def Song.secondsToTick (s : Song) (seconds : ℚ) : ℤ :=
  secondsToTickImpl seconds s.tempos (s.PPQ : ℚ)

/-- One iteration of the retiming loop body: recompute the time of the event
at position `i` from the current state of the whole sequence. -/
def retimeStep (resolution : ℚ) (l : List TempoEvent) (i : ℕ) : List TempoEvent :=
  match l[i]? with
  | none => l
  | some e => l.set i { e with time := tickToSecondsImpl e.ticks l resolution }

/-- The first `k` iterations of the retiming loop. -/
def retimeUpTo (resolution : ℚ) (l : List TempoEvent) : ℕ → List TempoEvent
  | 0 => l
  | k + 1 => retimeStep resolution (retimeUpTo resolution l k) k

/-- `Song#retimingTempoEvents` (`song.ts`): sort by ticks, then walk the
sequence front to back recomputing each event's time in place. -/
def retimingTempoEvents (resolution : ℚ) (l : List TempoEvent) : List TempoEvent :=
  let sorted := sortByTicks l
  retimeUpTo resolution sorted sorted.length

/-- `Song#createTempoChange` (`song.ts`).  The time of the new event is
computed against the pre-insertion sequence; the source's `insertIndex < 0`
push branch is dead because `ge` returns an index in `[0, length]`. -/
def Song.createTempoChange (s : Song) (ticks : ℕ) (bpm : ℚ) : Except SongError Song :=
  if s.PPQ ≤ 0 then .error .resolutionNotSet
  else if s.tempos = [] ∧ ticks ≠ 0 then .error .firstTempoMustBeZero
  else
    let tempoChange : TempoEvent :=
      { ticks := ticks, bpm := bpm, time := tickToSecondsImpl ticks s.tempos (s.PPQ : ℚ) }
    let insertIndex := geIndex ticks s.tempos
    let tempos' := s.tempos.take insertIndex ++ tempoChange :: s.tempos.drop insertIndex
    .ok { s with tempos := retimingTempoEvents (s.PPQ : ℚ) tempos' }

/-- `Song#overwriteTempoChanges` (`song.ts`): reject empty input, sort, reject
a non-zero earliest tick, install a canonical tick-0/time-0 event carrying the
earliest input's BPM, then re-insert the rest through `createTempoChange`. -/
def Song.overwriteTempoChanges (s : Song) (tempoEvents : List TempoEvent) :
    Except SongError Song :=
  if tempoEvents = [] then .error .cannotClearTempoEvents
  else
    match sortByTicks tempoEvents with
    | [] => .error .cannotClearTempoEvents
    | firstTempoEvent :: rest =>
      if 0 < firstTempoEvent.ticks then .error .firstTempoNeedsStartZero
      else
        let s0 := { s with tempos := [{ ticks := 0, bpm := firstTempoEvent.bpm, time := 0 }] }
        rest.foldlM (fun acc e => acc.createTempoChange e.ticks e.bpm) s0

/-- `Song#updateTempo` (`song.ts`): mutate the BPM of the event (selected here
by its position) and retime the whole sequence. -/
def Song.updateTempo (s : Song) (i : ℕ) (newBPM : ℚ) : Song :=
  let tempos' :=
    match s.tempos[i]? with
    | none => s.tempos
    | some e => s.tempos.set i { e with bpm := newBPM }
  { s with tempos := retimingTempoEvents (s.PPQ : ℚ) tempos' }

/-- `Song#overwriteTimeSignatures` (`song.ts`): wholesale replacement
(`cloneDeep` of pure values is the identity here). -/
def Song.overwriteTimeSignatures (s : Song) (timeSignatures : List TimeSignatureEvent) : Song :=
  { s with timeSignatures := timeSignatures }

/-- String-keyed read of the capability record,
`(songAccess() as any)[accessName]`; unknown keys read as `false`. -/
def songAccessGranted (a : SongAccess) (accessName : String) : Bool :=
  if accessName = "createTrack" then a.createTrack
  else if accessName = "removeTrack" then a.removeTrack
  else false

/-- `Song#checkAccess` (`song.ts`). -/
def Song.checkAccess (s : Song) (accessName : String) : Except SongError Unit :=
  match s.pluginContext with
  | none => .error .noPluginContext
  | some ctx =>
    if songAccessGranted ctx.plugin.access accessName then .ok ()
    else .error (.missingAccess ctx.plugin.id accessName)

/-- `Song#setPluginContextInternal` (`song.ts`). -/
def Song.setPluginContextInternal (s : Song) (plugin : TuneflowPlugin) : Song :=
  { s with pluginContext := some { plugin := plugin, numTracksCreatedByPlugin := 0 } }

/-- `Song#clearPluginContextInternal` (`song.ts`). -/
def Song.clearPluginContextInternal (s : Song) : Song :=
  { s with pluginContext := none }

/-- `Song#getNextTrackId` (`song.ts`) acting on the attached context.
`fresh` stands for the id `Track.generateTrackIdInternal()` would mint if the
call reaches the minting branch. -/
def getNextTrackId (fresh : String) (ctx : PluginContext) :
    Except SongError (String × PluginContext) :=
  let pool := ctx.plugin.generatedTrackIdsInternal
  if ctx.numTracksCreatedByPlugin = pool.length then
    let pool' := pool ++ [fresh]
    .ok (pool'.getD ctx.numTracksCreatedByPlugin "",
      { plugin := { ctx.plugin with generatedTrackIdsInternal := pool' },
        numTracksCreatedByPlugin := ctx.numTracksCreatedByPlugin + 1 })
  else if pool.length < ctx.numTracksCreatedByPlugin then .error .trackIdsOutOfSync
  else
    .ok (pool.getD ctx.numTracksCreatedByPlugin "",
      { ctx with numTracksCreatedByPlugin := ctx.numTracksCreatedByPlugin + 1 })

/-- `Song#createTrack` (`song.ts`).  The source resolves the rank before
constructing the track, so the `rank == undefined` fallback inside the
constructor call is dead; `fresh` feeds `getNextTrackId`'s minting branch. -/
def Song.createTrack (s : Song) (type : TrackType) (index : Option ℕ)
    (rank : Option ℕ) (fresh : String) : Except SongError (Track × Song) := do
  _ ← s.checkAccess "createTrack"
  let (rankValue, nextRank) :=
    match rank with
    | none => (s.nextTrackRank, s.nextTrackRank + 1)
    | some r => (r, max (r + 1) s.nextTrackRank)
  match s.pluginContext with
  | none => .error .noPluginContext
  | some ctx => do
    let (uuid, ctx') ← getNextTrackId fresh ctx
    let track : Track := { uuid := uuid, trackType := type, rank := rankValue }
    let tracks' :=
      match index with
      | some i => s.tracks.take i ++ track :: s.tracks.drop i
      | none => s.tracks ++ [track]
    let s' : Song :=
      { s with
        tracks := tracks'
        nextTrackRank := nextRank
        pluginContext := some ctx' }
    .ok (track, s')

/-- `Song#removeTrack` (`song.ts`): first matching track is found and spliced
out; `null` when no track matches. -/
def Song.removeTrack (s : Song) (trackId : String) :
    Except SongError (Option Track × Song) := do
  _ ← s.checkAccess "removeTrack"
  match s.tracks.find? (fun track => track.uuid == trackId) with
  | none => .ok (none, s)
  | some track =>
    let i := s.tracks.findIdx (fun track => track.uuid == trackId)
    .ok (some track, { s with tracks := s.tracks.eraseIdx i })

/-- Run `n` consecutive `createTrack({ type })` calls (no explicit index or
rank), as a plugin creating `n` tracks does; `supply k` is the candidate
fresh id for the `k`-th call.  Returns the created uuids in call order. -/
def createTracksRun (supply : ℕ → String) : ℕ → ℕ → Song →
    Except SongError (List String × Song)
  | _, 0, s => .ok ([], s)
  | k, n + 1, s =>
    match s.createTrack TrackType.midi none none (supply k) with
    | .error e => .error e
    | .ok (track, s') =>
      match createTracksRun supply (k + 1) n s' with
      | .error e => .error e
      | .ok (ids, s'') => .ok (track.uuid :: ids, s'')

/-- A decoded tempo event of the external MIDI file
(`midi.header.tempos[i]`). -/
structure RawTempoEvent where
  ticks : ℕ
  time : ℚ
  bpm : ℚ
  deriving DecidableEq, Repr

/-- `scaleIntBy` (`song.ts`): `Math.round(val * factor)`. -/
def scaleIntBy (val : ℚ) (factor : ℚ) : ℤ := round (val * factor)

/-- The rescale factor of `Song.importMIDI` (`song.ts`):
`480 / midi.header.ppq` — the constant 480, not the destination song's
resolution. -/
def importPpqScaleFactor (sourcePPQ : ℚ) : ℚ := 480 / sourcePPQ

/-- The destination start tick `importMIDI` computes for a foreign note (the
same mapping is applied to tempo, time-signature and control-change ticks):
`insertOffset + scaleIntBy(note.ticks, ppqScaleFactor)`. -/
def importNoteStartTick (insertOffset : ℕ) (sourcePPQ : ℚ) (noteTicks : ℕ) : ℤ :=
  (insertOffset : ℤ) + scaleIntBy (noteTicks : ℚ) (importPpqScaleFactor sourcePPQ)

/-- The mapping claim C1 describes, rescaling by
`destinationResolution / sourceResolution`. -/
def importTickPerClaim (destinationPPQ : ℚ) (insertOffset : ℕ) (sourcePPQ : ℚ)
    (noteTicks : ℕ) : ℤ :=
  (insertOffset : ℤ) + round ((noteTicks : ℚ) * destinationPPQ / sourcePPQ)

/-- The tempo-event list `importMIDI` builds when overwriting tempos: a
synthetic 120 BPM event at tick 0 when the insert offset is positive, then
the decoded events with rescaled, offset ticks. -/
def importMIDITempoEvents (insertOffset : ℕ) (sourcePPQ : ℚ)
    (rawTempos : List RawTempoEvent) : List TempoEvent :=
  (if 0 < insertOffset then [{ ticks := 0, bpm := 120, time := 0 }] else []) ++
    rawTempos.map fun r =>
      { ticks := ((insertOffset : ℤ) +
          scaleIntBy (r.ticks : ℚ) (importPpqScaleFactor sourcePPQ)).toNat,
        bpm := r.bpm, time := r.time }

/-- The effect of `Song.importMIDI` on the tempo sequence: with
`overwriteTemposAndTimeSignatures` set it feeds the built list through
`overwriteTempoChanges`; otherwise the tempo sequence is untouched. -/
def Song.importMIDITempos (s : Song) (insertOffset : ℕ) (sourcePPQ : ℚ)
    (rawTempos : List RawTempoEvent) (overwrite : Bool) : Except SongError Song :=
  if overwrite then s.overwriteTempoChanges (importMIDITempoEvents insertOffset sourcePPQ rawTempos)
  else .ok s

/-- First element (if any) sits at tick 0. -/
def firstTickZero : List TempoEvent → Prop
  | [] => True
  | e :: _ => e.ticks = 0

instance (l : List TempoEvent) : Decidable (firstTickZero l) :=
  match l with
  | [] => .isTrue trivial
  | e :: _ => inferInstanceAs (Decidable (e.ticks = 0))

/-- The sequence is sorted (non-strictly) ascending by tick. -/
def sortedTicks (l : List TempoEvent) : Prop := List.Sorted ticksLE l

instance (l : List TempoEvent) : Decidable (sortedTicks l) :=
  inferInstanceAs (Decidable (List.Pairwise ticksLE l))

/-- Every stored time is the tick-to-seconds integration of the sequence's
preceding segments (a fixed point of the retiming pass). -/
def timesConsistent (resolution : ℚ) (l : List TempoEvent) : Prop :=
  ∀ i : Fin l.length, (l.get i).time = tickToSecondsImpl (l.get i).ticks l resolution

instance (resolution : ℚ) (l : List TempoEvent) : Decidable (timesConsistent resolution l) :=
  inferInstanceAs (Decidable (∀ i : Fin l.length,
    (l.get i).time = tickToSecondsImpl (l.get i).ticks l resolution))

/-- The tempo-sequence invariant of claim C6 with the duplicate-tick clause
removed (the code keeps both events of an equal-tick insertion). -/
def TempoInvariant (resolution : ℚ) (l : List TempoEvent) : Prop :=
  firstTickZero l ∧ sortedTicks l ∧ timesConsistent resolution l

instance (resolution : ℚ) (l : List TempoEvent) : Decidable (TempoInvariant resolution l) :=
  inferInstanceAs (Decidable (_ ∧ _ ∧ _))

/-! Concrete songs and plugins used by witnesses and counterexamples. -/

/-- A plugin declaring both track capabilities. -/
def demoPluginFull : TuneflowPlugin :=
  { id := "prov.plug", access := { createTrack := true, removeTrack := true },
    generatedTrackIdsInternal := [] }

/-- A plugin declaring no capability. -/
def demoPluginDenied : TuneflowPlugin :=
  { id := "prov.plug", access := {}, generatedTrackIdsInternal := [] }

/-- A context for the denied plugin. -/
def demoCtxDenied : PluginContext :=
  { plugin := demoPluginDenied, numTracksCreatedByPlugin := 0 }

/-- A song with resolution 480 and a single 120 BPM tempo event, no context. -/
def demoSongTempo : Song := { Song.empty with PPQ := 480, tempos := [⟨0, 120, 0⟩] }

/-- A song with no plugin context attached. -/
def demoSongNoCtx : Song := { Song.empty with PPQ := 480 }

/-- A song whose attached context belongs to a capability-less plugin. -/
def demoSongDenied : Song := { Song.empty with PPQ := 480, pluginContext := some demoCtxDenied }

/-- Two concrete tracks. -/
def demoTrackA : Track := { uuid := "tA", trackType := TrackType.midi, rank := 1 }

/-- Second concrete track. -/
def demoTrackB : Track := { uuid := "tB", trackType := TrackType.audio, rank := 2 }

/-- A song holding two tracks, attached to a fully privileged context. -/
def demoSongTracks : Song :=
  { Song.empty with
    PPQ := 480
    tracks := [demoTrackA, demoTrackB]
    pluginContext := some { plugin := demoPluginFull, numTracksCreatedByPlugin := 0 } }

/-- A fresh-id supply for a first plugin run. -/
def demoSupplyA : ℕ → String := fun k => if k = 0 then "idA0" else "idA1"

/-- A different fresh-id supply for a second run. -/
def demoSupplyB : ℕ → String := fun _ => "idB"

/-- A song carrying a fresh context for the fully privileged plugin. -/
def demoSongRun1 : Song :=
  { Song.empty with
    PPQ := 480
    pluginContext := some { plugin := demoPluginFull, numTracksCreatedByPlugin := 0 } }

/-- The plugin state after a first run creating two tracks. -/
def demoPluginAfterRun : TuneflowPlugin :=
  { id := "prov.plug", access := { createTrack := true, removeTrack := true },
    generatedTrackIdsInternal := ["idA0", "idA1"] }

/-- The song state after the first two-track run. -/
def demoSongAfterRun : Song :=
  { tracks := [{ uuid := "idA0", trackType := TrackType.midi, rank := 1 },
               { uuid := "idA1", trackType := TrackType.midi, rank := 2 }],
    PPQ := 480, tempos := [], timeSignatures := [],
    pluginContext := some { plugin := demoPluginAfterRun, numTracksCreatedByPlugin := 2 },
    nextTrackRank := 3 }

/-- A song for the second run: context reset, plugin instance retained. -/
def demoSongRun2 : Song :=
  { Song.empty with
    PPQ := 480
    pluginContext := some { plugin := demoPluginAfterRun, numTracksCreatedByPlugin := 0 } }

/-- The tick/BPM content of a tempo event (its derived time dropped). -/
def tickBpm (e : TempoEvent) : ℕ × ℚ := (e.ticks, e.bpm)

/-- A second one-event song (BPM 100). -/
def demoSongTempo2 : Song := { Song.empty with PPQ := 480, tempos := [⟨0, 100, 0⟩] }

/-- A tempo overwrite input with two events at tick 0. -/
def demoOverwriteInput : List TempoEvent := [⟨0, 100, 0⟩, ⟨0, 200, 0⟩]

/-- A two-event song satisfying the tempo invariant (times derived). -/
def demoSongTwoTempo : Song :=
  { Song.empty with PPQ := 480, tempos := [⟨0, 120, 0⟩, ⟨480, 60, 1/2⟩] }

/-- The state after inserting a 60 BPM event at the occupied tick 0 of
`demoSongTempo`: the new event lands in front of the old one. -/
def demoSongC2 : Song :=
  { Song.empty with PPQ := 480, tempos := [⟨0, 60, 0⟩, ⟨0, 120, 0⟩] }

/-- The state after inserting a 90 BPM event at the occupied tick 0 of
`demoSongTempo2`: the sequence now holds a duplicated tick. -/
def demoSongC6 : Song :=
  { Song.empty with PPQ := 480, tempos := [⟨0, 90, 0⟩, ⟨0, 100, 0⟩] }

/-- The state after overwriting with two tick-0 inputs (BPM 100 then 200):
the stored head carries BPM 200. -/
def demoSongC5 : Song :=
  { Song.empty with PPQ := 480, tempos := [⟨0, 200, 0⟩, ⟨0, 100, 0⟩] }

/-- A well-formed overwrite input with a single tick-0 event. -/
def demoC5Input : List TempoEvent := [⟨0, 100, 7⟩, ⟨480, 60, 9⟩]

/-! General-purpose list lemmas. -/

theorem except_error_bind {ε : Type u} {α β : Type v} (e : ε) (f : α → Except ε β) :
    (Except.error e >>= f) = Except.error e := rfl

theorem except_ok_bind {ε : Type u} {α β : Type v} (a : α) (f : α → Except ε β) :
    (Except.ok a >>= f) = f a := rfl

theorem find?_append_cons {α : Type} {p : α → Bool} (pre post : List α) (x : α)
    (hpre : ∀ y ∈ pre, p y = false) (hx : p x = true) :
    (pre ++ x :: post).find? p = some x := by
  induction pre with
  | nil => simp [List.find?_cons_of_pos, hx]
  | cons a as ih =>
    have ha : p a = false := hpre a (by simp)
    rw [List.cons_append, List.find?_cons_of_neg _ (by simp [ha])]
    exact ih fun y hy => hpre y (by simp [hy])

theorem findIdx_append_cons {α : Type} {p : α → Bool} (pre post : List α) (x : α)
    (hpre : ∀ y ∈ pre, p y = false) (hx : p x = true) :
    (pre ++ x :: post).findIdx p = pre.length := by
  induction pre with
  | nil => simp [List.findIdx_cons, hx]
  | cons a as ih =>
    have ha : p a = false := hpre a (by simp)
    rw [List.cons_append, List.findIdx_cons]
    simp only [ha, cond_false, List.length_cons]
    rw [ih fun y hy => hpre y (by simp [hy])]

theorem eraseIdx_append_cons {α : Type} (pre post : List α) (x : α) :
    (pre ++ x :: post).eraseIdx pre.length = pre ++ post := by
  induction pre with
  | nil => rfl
  | cons a as ih => simpa [List.eraseIdx_cons_succ] using ih

/-- Reading `songAccessGranted` at the literal key "createTrack". -/
theorem songAccessGranted_createTrack (a : SongAccess) :
    songAccessGranted a "createTrack" = a.createTrack := rfl

/-- Reading `songAccessGranted` at the literal key "removeTrack". -/
theorem songAccessGranted_removeTrack (a : SongAccess) :
    songAccessGranted a "removeTrack" = a.removeTrack := by
  simp [songAccessGranted]

/-- C1 counterexample: importing with source resolution 96 into a song whose
resolution is 960 sends foreign tick 48 to destination tick 240 (the factor is
the constant 480, not the destination resolution), while the claimed mapping
`insertOffset + round(t * R_d / R_s)` with `R_d = 960` yields 480. -/
theorem c1_counterexample :
    importNoteStartTick 0 96 48 = 240 ∧ importTickPerClaim 960 0 96 48 = 480 ∧
      importNoteStartTick 0 96 48 ≠ importTickPerClaim 960 0 96 48 := by
  refine ⟨?_, ?_, ?_⟩ <;>
    norm_num [importNoteStartTick, importTickPerClaim, scaleIntBy, importPpqScaleFactor]

/-- C1 (amended): `importMIDI` maps each foreign tick `t` to
`insertOffset + round(t * 480 / R_s)` — the rescale factor is the constant
480 divided by the source resolution, independent of the destination song's
resolution; in particular with source resolution 96 and insert offset 0,
foreign tick 48 maps to destination tick 240. -/
theorem c1_import_rescales_by_480 (insertOffset : ℕ) (sourcePPQ : ℚ) (t : ℕ) :
    importNoteStartTick insertOffset sourcePPQ t =
      (insertOffset : ℤ) + round ((t : ℚ) * 480 / sourcePPQ) ∧
    importNoteStartTick 0 96 48 = 240 := by
  constructor
  · unfold importNoteStartTick scaleIntBy importPpqScaleFactor
    rw [mul_div_assoc]
  · norm_num [importNoteStartTick, scaleIntBy, importPpqScaleFactor]

/-- C4: `createTrack` with no attached execution context fails with the
"no privileged context" error, and with a context whose plugin lacks the
`createTrack` capability it fails with the "missing capability" error naming
the plugin id and the capability; the same two-step check guards
`removeTrack` with the `removeTrack` capability. -/
theorem c4_capability_checks (s : Song) (type : TrackType) (index rank : Option ℕ)
    (fresh trackId : String) (ctx : PluginContext) :
    (s.pluginContext = none →
      s.createTrack type index rank fresh = .error .noPluginContext ∧
      s.removeTrack trackId = .error .noPluginContext) ∧
    (s.pluginContext = some ctx →
      (ctx.plugin.access.createTrack = false →
        s.createTrack type index rank fresh =
          .error (.missingAccess ctx.plugin.id "createTrack")) ∧
      (ctx.plugin.access.removeTrack = false →
        s.removeTrack trackId = .error (.missingAccess ctx.plugin.id "removeTrack"))) := by
  constructor
  · intro h
    constructor
    · simp [Song.createTrack, Song.checkAccess, h, except_error_bind]
    · simp [Song.removeTrack, Song.checkAccess, h, except_error_bind]
  · intro h
    constructor
    · intro hacc
      simp [Song.createTrack, Song.checkAccess, h, songAccessGranted_createTrack, hacc,
        except_error_bind]
    · intro hacc
      simp [Song.removeTrack, Song.checkAccess, h, songAccessGranted_removeTrack, hacc,
        except_error_bind]

/-- C4 witness: the two failure modes at concrete songs. -/
theorem c4_witness :
    demoSongNoCtx.pluginContext = none ∧
    demoSongNoCtx.createTrack TrackType.midi none none "f" = .error .noPluginContext ∧
    demoSongDenied.pluginContext = some demoCtxDenied ∧
    demoSongDenied.removeTrack "tA" = .error (.missingAccess "prov.plug" "removeTrack") :=
  ⟨rfl,
   ((c4_capability_checks demoSongNoCtx TrackType.midi none none "f" "x" demoCtxDenied).1
      rfl).1,
   rfl,
   ((c4_capability_checks demoSongDenied TrackType.midi none none "f" "tA"
      demoCtxDenied).2 rfl).2 rfl⟩

/-- C9: `createTempoChange` fails exactly when the resolution is unset
(`PPQ` not ≥ 1) or the tempo sequence is empty and the requested tick is not
0; both throws in the source precede the insertion, so a failing call leaves
the tempo sequence untouched (here: returns no new song at all). -/
theorem c9_create_tempo_error_iff (s : Song) (ticks : ℕ) (bpm : ℚ) :
    (∃ e, s.createTempoChange ticks bpm = .error e) ↔
      (¬ 1 ≤ s.PPQ ∨ (s.tempos = [] ∧ ticks ≠ 0)) := by
  unfold Song.createTempoChange
  by_cases h1 : s.PPQ ≤ 0
  · rw [if_pos h1]
    exact iff_of_true ⟨_, rfl⟩ (Or.inl (by omega))
  · rw [if_neg h1]
    by_cases h2 : s.tempos = [] ∧ ticks ≠ 0
    · rw [if_pos h2]
      exact iff_of_true ⟨_, rfl⟩ (Or.inr h2)
    · rw [if_neg h2]
      refine iff_of_false ?_ ?_
      · rintro ⟨e, he⟩
        simp at he
      · rintro (h | h)
        · exact h (by omega)
        · exact h2 h

/-- C10: with a privileged context attached, `removeTrack` on an id matching
no track returns `null` and leaves the track list untouched; on a matching id
it splices out exactly the (first) matching track and returns it. -/
theorem c10_remove_track (s : Song) (ctx : PluginContext) (trackId : String)
    (hctx : s.pluginContext = some ctx)
    (hacc : ctx.plugin.access.removeTrack = true) :
    ((∀ tr ∈ s.tracks, tr.uuid ≠ trackId) → s.removeTrack trackId = .ok (none, s)) ∧
    (∀ pre tr post, s.tracks = pre ++ tr :: post → tr.uuid = trackId →
      (∀ x ∈ pre, x.uuid ≠ trackId) →
      s.removeTrack trackId = .ok (some tr, { s with tracks := pre ++ post })) := by
  have hca : s.checkAccess "removeTrack" = .ok () := by
    simp [Song.checkAccess, hctx, songAccessGranted_removeTrack, hacc]
  constructor
  · intro hnone
    have hfind : s.tracks.find? (fun track => track.uuid == trackId) = none := by
      rw [List.find?_eq_none]
      intro x hx
      simp [hnone x hx]
    simp [Song.removeTrack, hca, hfind, except_ok_bind]
  · intro pre tr post htr huuid hpre
    have hfind : s.tracks.find? (fun track => track.uuid == trackId) = some tr := by
      rw [htr]
      exact find?_append_cons pre post tr (fun y hy => by simp [hpre y hy]) (by simp [huuid])
    have hidx : s.tracks.findIdx (fun track => track.uuid == trackId) = pre.length := by
      rw [htr]
      exact findIdx_append_cons pre post tr (fun y hy => by simp [hpre y hy]) (by simp [huuid])
    have herase : s.tracks.eraseIdx pre.length = pre ++ post := by
      rw [htr]; exact eraseIdx_append_cons pre post tr
    simp [Song.removeTrack, hca, hfind, hidx, herase, except_ok_bind]

/-- C10 witness: removing a missing id is a no-op returning `null`; removing
"tB" splices exactly that track out. -/
theorem c10_witness :
    demoSongTracks.removeTrack "zz" = .ok (none, demoSongTracks) ∧
    demoSongTracks.removeTrack "tB" =
      .ok (some demoTrackB, { demoSongTracks with tracks := [demoTrackA] }) := by
  constructor
  · exact (c10_remove_track demoSongTracks
      ⟨demoPluginFull, 0⟩ "zz" rfl rfl).1 (by decide)
  · exact (c10_remove_track demoSongTracks
      ⟨demoPluginFull, 0⟩ "tB" rfl rfl).2 [demoTrackA] demoTrackB [] rfl rfl (by decide)

/-- C7: for a song with exactly one tempo event, at tick 0 with BPM `B` and
time 0, and resolution `R ≥ 1`, `tickToSeconds t = t * 60 / (B * R)` for all
ticks `t` (exactly, in the rational model of the doubles); and
`tickToSeconds 0 = 0` for every song unconditionally. -/
theorem c7_constant_tempo_linear (s : Song) (B : ℚ) (R : ℕ)
    (htempos : s.tempos = [⟨0, B, 0⟩]) (hR : s.PPQ = R)
    (hB : 0 < B) (hR1 : 1 ≤ R) :
    (∀ t : ℕ, s.tickToSeconds t = (t : ℚ) * 60 / (B * (R : ℚ))) ∧
    (∀ s' : Song, s'.tickToSeconds 0 = 0) := by
  constructor
  · intro t
    by_cases ht : t = 0
    · subst ht
      simp [Song.tickToSeconds, tickToSecondsImpl]
    · have hB' : B ≠ 0 := ne_of_gt hB
      have hR0 : R ≠ 0 := by omega
      have hRq : (R : ℚ) ≠ 0 := Nat.cast_ne_zero.mpr hR0
      rw [Song.tickToSeconds, htempos, hR, tickToSecondsImpl]
      simp only [ht, if_false]
      have hlast : lastIdxP (fun e => decide (e.ticks < t)) [⟨0, B, 0⟩] = some 0 := by
        simp [lastIdxP, Nat.pos_of_ne_zero ht]
      rw [hlast]
      simp only [Option.getD_some, List.getElem?_cons_zero]
      show (0 : ℚ) + ((t : ℚ) - ((0 : ℕ) : ℚ)) / tempoBPMToTicksPerSecond B R = _
      rw [tempoBPMToTicksPerSecond]
      push_cast
      field_simp
  · intro s'
    simp [Song.tickToSeconds, tickToSecondsImpl]

/-- C7 witness: 960 ticks at 120 BPM, resolution 480, last one second. -/
theorem c7_witness :
    demoSongTempo.tempos = [⟨0, 120, 0⟩] ∧
    demoSongTempo.tickToSeconds 960 = (960 : ℚ) * 60 / (120 * (480 : ℕ)) :=
  ⟨rfl,
   (c7_constant_tempo_linear demoSongTempo 120 480 rfl rfl (by norm_num) (by norm_num)).1 960⟩

/-- A successful `createTrack` in a well-formed context: the minted/reused id
is read off the (possibly extended) pool at the context counter, and the
counter advances by one. -/
theorem createTrack_ok (s : Song) (p : TuneflowPlugin) (c : ℕ) (type : TrackType)
    (index rank : Option ℕ) (fresh : String)
    (hctx : s.pluginContext = some ⟨p, c⟩)
    (hacc : p.access.createTrack = true)
    (hc : c ≤ p.generatedTrackIdsInternal.length) :
    ∃ (tr : Track) (s' : Song),
      s.createTrack type index rank fresh = .ok (tr, s') ∧
      tr.uuid = (if c = p.generatedTrackIdsInternal.length
        then p.generatedTrackIdsInternal ++ [fresh]
        else p.generatedTrackIdsInternal).getD c "" ∧
      s'.pluginContext = some
        ⟨{ p with generatedTrackIdsInternal :=
            if c = p.generatedTrackIdsInternal.length
            then p.generatedTrackIdsInternal ++ [fresh]
            else p.generatedTrackIdsInternal }, c + 1⟩ := by
  have hca : s.checkAccess "createTrack" = .ok () := by
    simp [Song.checkAccess, hctx, songAccessGranted_createTrack, hacc]
  unfold Song.createTrack
  rw [hca, except_ok_bind, hctx]
  dsimp only
  unfold getNextTrackId
  by_cases hceq : c = p.generatedTrackIdsInternal.length
  · simp only [if_pos hceq, except_ok_bind]
    exact ⟨_, _, rfl, rfl, rfl⟩
  · have hlt : ¬ p.generatedTrackIdsInternal.length < c := by omega
    simp only [if_neg hceq, if_neg hlt, except_ok_bind]
    exact ⟨_, _, rfl, rfl, rfl⟩

/-- Helper: reading the head of a dropped slice. -/
theorem drop_take_succ_getD {α : Type} (l : List α) (c n : ℕ) (h : c < l.length) (d : α) :
    (l.drop c).take (n + 1) = l.getD c d :: (l.drop (c + 1)).take n := by
  rw [List.drop_eq_getElem_cons h, List.take_succ_cons, List.getD_eq_getElem?_getD,
    List.getElem?_eq_getElem h]
  rfl


/-- Running `n` consecutive `createTrack` calls from a context whose counter
does not exceed the pool length: the run succeeds, the pool only grows, its
final length is `max (initial length) (counter + n)`, and the returned ids
are exactly the slice of the final pool starting at the initial counter. -/
theorem createTracksRun_spec (supply : ℕ → String) (n : ℕ) :
    ∀ (k c : ℕ) (s : Song) (p : TuneflowPlugin),
      s.pluginContext = some ⟨p, c⟩ →
      p.access.createTrack = true →
      c ≤ p.generatedTrackIdsInternal.length →
      ∃ (ids : List String) (s' : Song) (p' : TuneflowPlugin),
        createTracksRun supply k n s = .ok (ids, s') ∧
        s'.pluginContext = some ⟨p', c + n⟩ ∧
        p'.id = p.id ∧ p'.access = p.access ∧
        (∃ ext, p'.generatedTrackIdsInternal = p.generatedTrackIdsInternal ++ ext) ∧
        p'.generatedTrackIdsInternal.length
          = max p.generatedTrackIdsInternal.length (c + n) ∧
        ids = (p'.generatedTrackIdsInternal.drop c).take n := by
  induction n with
  | zero =>
    intro k c s p hctx hacc hc
    refine ⟨[], s, p, rfl, by simpa using hctx, rfl, rfl, ⟨[], by simp⟩, ?_, by simp⟩
    omega
  | succ n ih =>
    intro k c s p hctx hacc hc
    obtain ⟨tr, s1, hrun1, huuid, hctx1⟩ :=
      createTrack_ok s p c TrackType.midi none none (supply k) hctx hacc hc
    by_cases hceq : c = p.generatedTrackIdsInternal.length
    · -- minting branch: the pool grows by the fresh id
      rw [if_pos hceq] at huuid hctx1
      have hc1 : c + 1 ≤ (p.generatedTrackIdsInternal ++ [supply k]).length := by
        simp [hceq]
      obtain ⟨ids2, s2, p2, hrun2, hctx2, hid2, hacc2, ⟨ext2, hext2⟩, hlen2, hids2⟩ :=
        ih (k + 1) (c + 1) s1
          { p with generatedTrackIdsInternal := p.generatedTrackIdsInternal ++ [supply k] }
          hctx1 hacc hc1
      dsimp only at hid2 hacc2 hext2 hlen2
      refine ⟨tr.uuid :: ids2, s2, p2, ?_,
        by rw [show c + (n + 1) = c + 1 + n from by omega]; exact hctx2,
        hid2, hacc2, ⟨supply k :: ext2, by simpa using hext2⟩, ?_, ?_⟩
      · unfold createTracksRun
        rw [hrun1]
        dsimp only
        rw [hrun2]
      · rw [hlen2]
        simp only [List.length_append, List.length_singleton]
        omega
      · have hclt : c < p2.generatedTrackIdsInternal.length := by
          rw [hlen2]; simp; omega
        rw [drop_take_succ_getD p2.generatedTrackIdsInternal c n hclt ""]
        rw [hids2, huuid]
        congr 1
        rw [hext2]
        exact (List.getD_append (p.generatedTrackIdsInternal ++ [supply k]) ext2 "" c
          (by simp [hceq])).symm
    · -- reuse branch: the pool is unchanged
      rw [if_neg hceq] at huuid hctx1
      have hc1 : c + 1 ≤ p.generatedTrackIdsInternal.length := by omega
      obtain ⟨ids2, s2, p2, hrun2, hctx2, hid2, hacc2, ⟨ext2, hext2⟩, hlen2, hids2⟩ :=
        ih (k + 1) (c + 1) s1 p hctx1 hacc hc1
      refine ⟨tr.uuid :: ids2, s2, p2, ?_,
        by rw [show c + (n + 1) = c + 1 + n from by omega]; exact hctx2,
        hid2, hacc2, ⟨ext2, hext2⟩, ?_, ?_⟩
      · unfold createTracksRun
        rw [hrun1]
        dsimp only
        rw [hrun2]
      · rw [hlen2]; omega
      · have hclt : c < p2.generatedTrackIdsInternal.length := by
          rw [hlen2]; omega
        rw [drop_take_succ_getD p2.generatedTrackIdsInternal c n hclt ""]
        rw [hids2, huuid]
        congr 1
        rw [hext2]
        exact (List.getD_append _ _ "" c (by omega)).symm

/-- C3: re-running a plugin that creates `N` tracks per run, with the context
reset between runs (`setPluginContextInternal`) but the plugin instance (and
hence its id pool) retained, returns the same `N` track ids in the same
order regardless of what fresh ids the second run could have minted; and any
`createTrack` call whose context counter exceeds the pool length fails
fatally with the out-of-sync error. -/
theorem c3_replay_same_track_ids (supply1 supply2 : ℕ → String) (p : TuneflowPlugin)
    (s1 s2 : Song) (N : ℕ) (ids1 : List String) (s1f : Song) (ctx1 : PluginContext)
    (hacc : p.access.createTrack = true)
    (h1 : s1.pluginContext = some ⟨p, 0⟩)
    (hrun1 : createTracksRun supply1 0 N s1 = .ok (ids1, s1f))
    (hctx1 : s1f.pluginContext = some ctx1)
    (h2 : s2.pluginContext = some ⟨ctx1.plugin, 0⟩) :
    (∃ s2f, createTracksRun supply2 0 N s2 = .ok (ids1, s2f)) ∧
    (∀ (s : Song) (ctx : PluginContext) (type : TrackType) (index rank : Option ℕ)
      (fresh : String),
      s.pluginContext = some ctx →
      ctx.plugin.access.createTrack = true →
      ctx.plugin.generatedTrackIdsInternal.length < ctx.numTracksCreatedByPlugin →
      s.createTrack type index rank fresh = .error .trackIdsOutOfSync) := by
  constructor
  · obtain ⟨ida, sa, pa, hruna, hctxa, hida, hacca, ⟨exta, hexta⟩, hlena, hidsa⟩ :=
      createTracksRun_spec supply1 N 0 0 s1 p h1 hacc (Nat.zero_le _)
    have heq : (Except.ok (ids1, s1f) : Except SongError (List String × Song))
        = .ok (ida, sa) := by
      rw [← hrun1, hruna]
    have hpair : (ids1, s1f) = (ida, sa) := by injection heq
    have hids : ida = ids1 := (congrArg Prod.fst hpair).symm
    have hsa : sa = s1f := (congrArg Prod.snd hpair).symm
    rw [hsa, hctx1] at hctxa
    injection hctxa with hctxa
    have hplug : ctx1.plugin = pa := by rw [hctxa]
    have hacc2 : ctx1.plugin.access.createTrack = true := by
      rw [hplug, hacca]; exact hacc
    obtain ⟨idb, sb, pb, hrunb, hctxb, hidb, haccb, ⟨extb, hextb⟩, hlenb, hidsb⟩ :=
      createTracksRun_spec supply2 N 0 0 s2 ctx1.plugin h2 hacc2 (Nat.zero_le _)
    have hNlen : N ≤ ctx1.plugin.generatedTrackIdsInternal.length := by
      rw [hplug, hlena]; omega
    have hextb0 : extb = [] := by
      have hl := hlenb
      rw [hextb] at hl
      simp only [List.length_append] at hl
      have hl0 : extb.length = 0 := by omega
      exact List.length_eq_zero.mp hl0
    have hidb2 : idb = ids1 := by
      rw [hidsb, hextb, hextb0, List.append_nil, hplug, ← hidsa, hids]
    refine ⟨sb, ?_⟩
    rw [hrunb, hidb2]
  · intro s ctx type index rank fresh hctx haccess hover
    have hca : s.checkAccess "createTrack" = .ok () := by
      simp [Song.checkAccess, hctx, songAccessGranted_createTrack, haccess]
    have h1 : ¬ ctx.numTracksCreatedByPlugin
        = ctx.plugin.generatedTrackIdsInternal.length := by omega
    simp [Song.createTrack, hca, hctx, getNextTrackId, h1, hover, except_ok_bind,
      except_error_bind]

/-- C3 witness: a concrete two-track run replayed with a different supply
returns the same two ids. -/
theorem c3_witness :
    ∃ s2f, createTracksRun demoSupplyB 0 2 demoSongRun2 = .ok (["idA0", "idA1"], s2f) :=
  (c3_replay_same_track_ids demoSupplyA demoSupplyB demoPluginFull demoSongRun1 demoSongRun2
    2 ["idA0", "idA1"] demoSongAfterRun
    ⟨demoPluginAfterRun, 2⟩ rfl rfl rfl rfl rfl).1

/-! Lemmas about `lastIdxP`, `geIndex`, and the sorted-insertion discipline. -/

theorem set_self_of_getElem? {α : Type} : ∀ (l : List α) (i : ℕ) (a : α),
    l[i]? = some a → l.set i a = l
  | [], _, _, h => by simp at h
  | x :: xs, 0, a, h => by
    simp only [List.getElem?_cons_zero, Option.some.injEq] at h
    simp [List.set, h]
  | x :: xs, i + 1, a, h => by
    simp only [List.getElem?_cons_succ] at h
    simp [List.set, set_self_of_getElem? xs i a h]

theorem lastIdxP_eq_none_iff (p : TempoEvent → Bool) (l : List TempoEvent) :
    lastIdxP p l = none ↔ ∀ e ∈ l, p e = false := by
  induction l with
  | nil => simp [lastIdxP]
  | cons x xs ih =>
    rw [lastIdxP]
    rcases h : lastIdxP p xs with _ | i
    · rw [h] at ih
      constructor
      · intro hx
        by_cases hpx : p x
        · simp [hpx] at hx
        · intro e he
          rcases List.mem_cons.mp he with rfl | he2
          · simpa using hpx
          · exact (ih.mp rfl) e he2
      · intro hall
        simp [hall x (by simp)]
    · constructor
      · intro hx; simp at hx
      · intro hall
        have : lastIdxP p xs = none := (ih.mpr fun e he => hall e (by simp [he])).symm ▸ rfl
        rw [h] at this
        simp at this

theorem lastIdxP_lt_length (p : TempoEvent → Bool) :
    ∀ (l : List TempoEvent) (i : ℕ), lastIdxP p l = some i → i < l.length := by
  intro l
  induction l with
  | nil => intro i h; simp [lastIdxP] at h
  | cons x xs ih =>
    intro i h
    rw [lastIdxP] at h
    rcases hx : lastIdxP p xs with _ | j
    · rw [hx] at h
      by_cases hpx : p x
      · simp [hpx] at h
        simp [← h]
      · simp [hpx] at h
    · rw [hx] at h
      simp only [Option.some.injEq] at h
      have := ih j hx
      simp [← h]
      omega

theorem lastIdxP_sat (p : TempoEvent → Bool) :
    ∀ (l : List TempoEvent) (i : ℕ) (e : TempoEvent),
      lastIdxP p l = some i → l[i]? = some e → p e = true := by
  intro l
  induction l with
  | nil => intro i e h; simp [lastIdxP] at h
  | cons x xs ih =>
    intro i e h hget
    rw [lastIdxP] at h
    rcases hx : lastIdxP p xs with _ | j
    · rw [hx] at h
      by_cases hpx : p x
      · simp [hpx] at h
        subst h
        simp only [List.getElem?_cons_zero, Option.some.injEq] at hget
        rw [← hget]; exact hpx
      · simp [hpx] at h
    · rw [hx] at h
      simp only [Option.some.injEq] at h
      subst h
      simp only [List.getElem?_cons_succ] at hget
      exact ih j e hx hget

theorem lastIdxP_last (p : TempoEvent → Bool) :
    ∀ (l : List TempoEvent) (i : ℕ), lastIdxP p l = some i →
      ∀ (m : ℕ) (e : TempoEvent), i < m → l[m]? = some e → p e = false := by
  intro l
  induction l with
  | nil => intro i h; simp [lastIdxP] at h
  | cons x xs ih =>
    intro i h m e him hget
    rw [lastIdxP] at h
    rcases hx : lastIdxP p xs with _ | j
    · rw [hx] at h
      by_cases hpx : p x
      · simp [hpx] at h
        subst h
        rcases m with _ | m
        · omega
        · simp only [List.getElem?_cons_succ] at hget
          have hm : e ∈ xs := List.getElem?_mem hget
          exact (lastIdxP_eq_none_iff p xs).mp hx e hm
      · simp [hpx] at h
    · rw [hx] at h
      simp only [Option.some.injEq] at h
      subst h
      rcases m with _ | m
      · omega
      · simp only [List.getElem?_cons_succ] at hget
        exact ih j hx m e (by omega) hget

theorem lastIdxP_of_sat_last (p : TempoEvent → Bool) :
    ∀ (l : List TempoEvent) (j : ℕ) (e : TempoEvent),
      l[j]? = some e → p e = true →
      (∀ (m : ℕ) (e' : TempoEvent), j < m → l[m]? = some e' → p e' = false) →
      lastIdxP p l = some j := by
  intro l
  induction l with
  | nil => intro j e h; simp at h
  | cons x xs ih
  =>
    intro j e hget hp hafter
    rw [lastIdxP]
    rcases j with _ | j
    · simp only [List.getElem?_cons_zero, Option.some.injEq] at hget
      subst hget
      have hnone : lastIdxP p xs = none := by
        rw [lastIdxP_eq_none_iff]
        intro e' he'
        obtain ⟨m, hm⟩ := List.getElem?_of_mem he'
        exact hafter (m + 1) e' (by omega) (by simpa using hm)
      rw [hnone, if_pos hp]
    · simp only [List.getElem?_cons_succ] at hget
      have hxs : lastIdxP p xs = some j :=
        ih j e hget hp fun m e' hm hg =>
          hafter (m + 1) e' (by omega) (by simpa using hg)
      rw [hxs]

theorem lastIdxP_isSome_of (p : TempoEvent → Bool) (l : List TempoEvent)
    (m : ℕ) (e : TempoEvent) (hget : l[m]? = some e) (hp : p e = true) :
    ∃ i, lastIdxP p l = some i := by
  rcases h : lastIdxP p l with _ | i
  · have := (lastIdxP_eq_none_iff p l).mp h e (List.getElem?_mem hget)
    rw [hp] at this
    simp at this
  · exact ⟨i, rfl⟩

theorem lastIdxP_congr (p : TempoEvent → Bool) :
    ∀ (l₁ l₂ : List TempoEvent), l₁.map p = l₂.map p →
      lastIdxP p l₁ = lastIdxP p l₂ := by
  intro l₁
  induction l₁ with
  | nil =>
    intro l₂ h
    cases l₂ with
    | nil => rfl
    | cons y ys => simp at h
  | cons x xs ih =>
    intro l₂ h
    cases l₂ with
    | nil => simp at h
    | cons y ys =>
      simp only [List.map_cons, List.cons.injEq] at h
      rw [lastIdxP, lastIdxP, ih ys h.2, h.1]

theorem geIndex_take (tick : ℕ) :
    ∀ l : List TempoEvent,
      l.take (geIndex tick l) = l.takeWhile (fun e => decide (e.ticks < tick)) := by
  intro l
  induction l with
  | nil => rfl
  | cons x xs ih =>
    rw [geIndex, List.takeWhile_cons]
    by_cases hx : tick ≤ x.ticks
    · rw [if_pos hx, if_neg (by simpa using hx)]
      rfl
    · rw [if_neg hx, if_pos (by simp; omega), List.take_succ_cons, ih]

theorem geIndex_drop (tick : ℕ) :
    ∀ l : List TempoEvent,
      l.drop (geIndex tick l) = l.dropWhile (fun e => decide (e.ticks < tick)) := by
  intro l
  induction l with
  | nil => rfl
  | cons x xs ih =>
    rw [geIndex, List.dropWhile_cons]
    by_cases hx : tick ≤ x.ticks
    · rw [if_pos hx, if_neg (by simpa using hx)]
      rfl
    · rw [if_neg hx, if_pos (by simp; omega), List.drop_succ_cons, ih]

theorem splice_eq_orderedInsert (e : TempoEvent) :
    ∀ l : List TempoEvent,
      l.take (geIndex e.ticks l) ++ e :: l.drop (geIndex e.ticks l) =
        List.orderedInsert ticksLE e l := by
  intro l
  induction l with
  | nil => rfl
  | cons x xs ih =>
    rw [geIndex, List.orderedInsert]
    by_cases hx : e.ticks ≤ x.ticks
    · rw [if_pos hx, if_pos (show ticksLE e x from hx)]
      rfl
    · rw [if_neg hx, if_neg (show ¬ ticksLE e x from hx), List.take_succ_cons,
        List.drop_succ_cons, List.cons_append, ih]

/-- Sortedness transfers along equal tick images. -/
theorem sortedTicks_iff_map (l : List TempoEvent) :
    sortedTicks l ↔ (l.map (fun e => e.ticks)).Pairwise (· ≤ ·) := by
  rw [sortedTicks, List.Sorted, List.pairwise_map]
  rfl

theorem sortedTicks_of_map_eq {l₁ l₂ : List TempoEvent}
    (h : l₁.map (fun e => e.ticks) = l₂.map (fun e => e.ticks)) :
    sortedTicks l₁ → sortedTicks l₂ := by
  rw [sortedTicks_iff_map, sortedTicks_iff_map, h]
  exact id

theorem firstTickZero_iff_map (l : List TempoEvent) :
    firstTickZero l ↔ ∀ n, (l.map (fun e => e.ticks)).head? = some n → n = 0 := by
  cases l with
  | nil => simp [firstTickZero]
  | cons x xs =>
    simp only [firstTickZero, List.map_cons, List.head?_cons]
    constructor
    · intro h n hn
      injection hn with hn
      omega
    · intro h
      exact h x.ticks rfl

theorem firstTickZero_of_map_eq {l₁ l₂ : List TempoEvent}
    (h : l₁.map (fun e => e.ticks) = l₂.map (fun e => e.ticks)) :
    firstTickZero l₁ → firstTickZero l₂ := by
  rw [firstTickZero_iff_map, firstTickZero_iff_map, h]
  exact id

theorem sortByTicks_sorted (l : List TempoEvent) : sortedTicks (sortByTicks l) :=
  List.sorted_insertionSort ticksLE l

theorem sortByTicks_of_sorted {l : List TempoEvent} (h : sortedTicks l) :
    sortByTicks l = l :=
  List.Sorted.insertionSort_eq h

/-- Position-wise tick monotonicity of a sorted sequence. -/
theorem sortedTicks_mono {l : List TempoEvent} (h : sortedTicks l) :
    ∀ (i j : ℕ) (ei ej : TempoEvent), i ≤ j → l[i]? = some ei → l[j]? = some ej →
      ei.ticks ≤ ej.ticks := by
  intro i j ei ej hij hi hj
  rcases Nat.eq_or_lt_of_le hij with rfl | hlt
  · rw [hi] at hj
    injection hj with hj
    rw [hj]
  · have hilen : i < l.length := by
      by_contra hc
      rw [List.getElem?_eq_none (by omega)] at hi
      simp at hi
    have hjlen : j < l.length := by
      by_contra hc
      rw [List.getElem?_eq_none (by omega)] at hj
      simp at hj
    have := List.pairwise_iff_get.mp h ⟨i, hilen⟩ ⟨j, hjlen⟩ (by simpa using hlt)
    rw [List.getElem?_eq_getElem hilen] at hi
    rw [List.getElem?_eq_getElem hjlen] at hj
    injection hi with hi
    injection hj with hj
    rw [← hi, ← hj] at *
    exact this

/-! The retiming pass: structural lemmas and the fixed-point property. -/

theorem tickToSecondsImpl_zero (l : List TempoEvent) (res : ℚ) :
    tickToSecondsImpl 0 l res = 0 := by
  rw [tickToSecondsImpl]
  simp

theorem retimeStep_length (res : ℚ) (l : List TempoEvent) (i : ℕ) :
    (retimeStep res l i).length = l.length := by
  rw [retimeStep]
  rcases h : l[i]? with _ | e
  · rfl
  · exact List.length_set l i _

theorem retimeUpTo_length (res : ℚ) (l : List TempoEvent) :
    ∀ k, (retimeUpTo res l k).length = l.length := by
  intro k
  induction k with
  | zero => rfl
  | succ k ih => rw [retimeUpTo, retimeStep_length, ih]

theorem retimeStep_map (res : ℚ) (l : List TempoEvent) (i : ℕ) :
    (retimeStep res l i).map tickBpm = l.map tickBpm := by
  rw [retimeStep]
  rcases h : l[i]? with _ | e
  · rfl
  · rw [List.map_set]
    have heq : tickBpm { e with time := tickToSecondsImpl e.ticks l res } = tickBpm e := rfl
    rw [heq]
    apply set_self_of_getElem?
    rw [List.getElem?_map, h]
    rfl

theorem retimeUpTo_map (res : ℚ) (l : List TempoEvent) :
    ∀ k, (retimeUpTo res l k).map tickBpm = l.map tickBpm := by
  intro k
  induction k with
  | zero => rfl
  | succ k ih => rw [retimeUpTo, retimeStep_map, ih]

theorem retimeUpTo_map_ticks (res : ℚ) (l : List TempoEvent) (k : ℕ) :
    (retimeUpTo res l k).map (fun e => e.ticks) = l.map (fun e => e.ticks) := by
  have h := congrArg (List.map (fun pr : ℕ × ℚ => pr.1)) (retimeUpTo_map res l k)
  rw [List.map_map, List.map_map] at h
  exact h

theorem retimeStep_getElem?_ne (res : ℚ) (l : List TempoEvent) (i j : ℕ) (hij : i ≠ j) :
    (retimeStep res l i)[j]? = l[j]? := by
  rw [retimeStep]
  rcases h : l[i]? with _ | e
  · rfl
  · exact List.getElem?_set_ne hij

theorem retimeUpTo_getElem?_of_le (res : ℚ) (l : List TempoEvent) :
    ∀ (k j : ℕ), k ≤ j → (retimeUpTo res l k)[j]? = l[j]? := by
  intro k
  induction k with
  | zero => intro j h; rfl
  | succ k ih =>
    intro j h
    rw [retimeUpTo, retimeStep_getElem?_ne res _ k j (by omega), ih j (by omega)]

theorem retimeUpTo_getElem?_stable (res : ℚ) (l : List TempoEvent) :
    ∀ (k j : ℕ), j < k → (retimeUpTo res l k)[j]? = (retimeUpTo res l (j + 1))[j]? := by
  intro k
  induction k with
  | zero => intro j h; omega
  | succ k ih =>
    intro j h
    rcases Nat.lt_or_ge j k with hjk | hjk
    · rw [retimeUpTo, retimeStep_getElem?_ne res _ k j (by omega), ih j hjk]
    · have : j = k := by omega
      rw [this]

theorem retimeUpTo_getElem?_succ (res : ℚ) (l : List TempoEvent) (j : ℕ)
    (e : TempoEvent) (hj : j < l.length) (he : l[j]? = some e) :
    (retimeUpTo res l (j + 1))[j]? =
      some { e with time := tickToSecondsImpl e.ticks (retimeUpTo res l j) res } := by
  rw [retimeUpTo, retimeStep]
  have hcur : (retimeUpTo res l j)[j]? = some e := by
    rw [retimeUpTo_getElem?_of_le res l j j (le_refl j), he]
  rw [hcur]
  exact List.getElem?_set_self (by rw [retimeUpTo_length]; exact hj)

theorem tickToSecondsImpl_congr (t : ℕ) (res : ℚ) (l₁ l₂ : List TempoEvent)
    (hbase : l₁[(lastIdxP (fun e => decide (e.ticks < t)) l₁).getD 0]? =
      l₂[(lastIdxP (fun e => decide (e.ticks < t)) l₂).getD 0]?) :
    tickToSecondsImpl t l₁ res = tickToSecondsImpl t l₂ res := by
  rw [tickToSecondsImpl, tickToSecondsImpl]
  by_cases ht : t = 0
  · rw [if_pos ht, if_pos ht]
  · rw [if_neg ht, if_neg ht]
    dsimp only
    rw [hbase]

theorem map_decide_of_map_tickBpm {l₁ l₂ : List TempoEvent} (t : ℕ)
    (h : l₁.map tickBpm = l₂.map tickBpm) :
    l₁.map (fun e => decide (e.ticks < t)) = l₂.map (fun e => decide (e.ticks < t)) := by
  have h2 := congrArg (List.map (fun pr : ℕ × ℚ => decide (pr.1 < t))) h
  rw [List.map_map, List.map_map] at h2
  exact h2

theorem retimeUpTo_timesConsistent (res : ℚ) (l : List TempoEvent)
    (hs : sortedTicks l) (h0 : firstTickZero l) :
    timesConsistent res (retimeUpTo res l l.length) := by
  intro i
  have hlen : (retimeUpTo res l l.length).length = l.length := retimeUpTo_length res l _
  have hjl : (i : ℕ) < l.length := by
    have := i.isLt
    omega
  have hjl2 : (i : ℕ) < (retimeUpTo res l l.length).length := i.isLt
  rcases hle : l[(i : ℕ)]? with _ | e
  · rw [List.getElem?_eq_none_iff] at hle
    omega
  have hFj : (retimeUpTo res l l.length)[(i : ℕ)]? =
      some { e with time := tickToSecondsImpl e.ticks (retimeUpTo res l (i : ℕ)) res } := by
    rw [retimeUpTo_getElem?_stable res l l.length (i : ℕ) hjl]
    exact retimeUpTo_getElem?_succ res l (i : ℕ) e hjl hle
  have hget : (retimeUpTo res l l.length).get i =
      { e with time := tickToSecondsImpl e.ticks (retimeUpTo res l (i : ℕ)) res } := by
    have h2 : (retimeUpTo res l l.length)[(i : ℕ)]? =
        some ((retimeUpTo res l l.length).get i) := by
      rw [List.getElem?_eq_getElem hjl2]
      rfl
    rw [h2] at hFj
    injection hFj
  rw [hget]
  by_cases ht : e.ticks = 0
  · dsimp only
    rw [ht, tickToSecondsImpl_zero, tickToSecondsImpl_zero]
  · dsimp only
    -- the base index read by the conversion lies strictly before position i
    have hmapF : (retimeUpTo res l l.length).map tickBpm = l.map tickBpm :=
      retimeUpTo_map res l _
    have hmapA : (retimeUpTo res l (i : ℕ)).map tickBpm = l.map tickBpm :=
      retimeUpTo_map res l _
    have hidxA : lastIdxP (fun x => decide (x.ticks < e.ticks)) (retimeUpTo res l (i : ℕ))
        = lastIdxP (fun x => decide (x.ticks < e.ticks)) l :=
      lastIdxP_congr _ _ _ (map_decide_of_map_tickBpm e.ticks hmapA)
    have hidxF : lastIdxP (fun x => decide (x.ticks < e.ticks)) (retimeUpTo res l l.length)
        = lastIdxP (fun x => decide (x.ticks < e.ticks)) l :=
      lastIdxP_congr _ _ _ (map_decide_of_map_tickBpm e.ticks hmapF)
    -- the first event of l is at tick 0 < e.ticks, so a base index exists
    obtain ⟨x, xs, hlx⟩ : ∃ x xs, l = x :: xs := by
      cases l with
      | nil => simp at hjl
      | cons x xs => exact ⟨x, xs, rfl⟩
    have hx0 : x.ticks = 0 := by
      rw [hlx] at h0
      exact h0
    have hx : l[0]? = some x := by rw [hlx]; simp
    obtain ⟨b, hb⟩ := lastIdxP_isSome_of (fun y => decide (y.ticks < e.ticks)) l 0 x hx
      (by simp [hx0]; omega)
    -- the base entry satisfies the predicate and precedes i
    have hblen : b < l.length := lastIdxP_lt_length _ l b hb
    rcases hbe : l[b]? with _ | eb
    · rw [List.getElem?_eq_none_iff] at hbe
      omega
    have hebt : eb.ticks < e.ticks := by
      have := lastIdxP_sat _ l b eb hb hbe
      simpa using this
    have hbi : b < (i : ℕ) := by
      by_contra hc
      have hle2 : (i : ℕ) ≤ b := by omega
      have := sortedTicks_mono hs (i : ℕ) b e eb hle2 hle hbe
      omega
    -- the base entry is already final at step i and stays final
    have hbaseA : (retimeUpTo res l (i : ℕ))[b]? = (retimeUpTo res l (b + 1))[b]? :=
      retimeUpTo_getElem?_stable res l (i : ℕ) b hbi
    have hbaseF : (retimeUpTo res l l.length)[b]? = (retimeUpTo res l (b + 1))[b]? :=
      retimeUpTo_getElem?_stable res l l.length b (by omega)
    apply tickToSecondsImpl_congr
    rw [hidxA, hidxF, hb]
    simp only [Option.getD_some]
    rw [hbaseA, hbaseF]

/-! Invariant preservation by the tempo operations. -/

theorem retimingTempoEvents_invariant (res : ℚ) (l : List TempoEvent)
    (h0 : firstTickZero (sortByTicks l)) :
    TempoInvariant res (retimingTempoEvents res l) := by
  have hs : sortedTicks (sortByTicks l) := sortByTicks_sorted l
  have hmap : (retimingTempoEvents res l).map (fun e => e.ticks)
      = (sortByTicks l).map (fun e => e.ticks) :=
    retimeUpTo_map_ticks res (sortByTicks l) (sortByTicks l).length
  exact ⟨firstTickZero_of_map_eq hmap.symm h0, sortedTicks_of_map_eq hmap.symm hs,
    retimeUpTo_timesConsistent res (sortByTicks l) hs h0⟩

theorem createTempoChange_ok_parts {s : Song} {t : ℕ} {b : ℚ} {s' : Song}
    (h : s.createTempoChange t b = .ok s') :
    s'.PPQ = s.PPQ ∧ 1 ≤ s.PPQ ∧ ¬(s.tempos = [] ∧ t ≠ 0) ∧
    s'.tempos = retimingTempoEvents (s.PPQ : ℚ)
      (s.tempos.take (geIndex t s.tempos) ++
        { ticks := t, bpm := b, time := tickToSecondsImpl t s.tempos (s.PPQ : ℚ) } ::
        s.tempos.drop (geIndex t s.tempos)) := by
  rw [Song.createTempoChange] at h
  by_cases h1 : s.PPQ ≤ 0
  · rw [if_pos h1] at h
    exact absurd h (by simp)
  · rw [if_neg h1] at h
    by_cases h2 : s.tempos = [] ∧ t ≠ 0
    · rw [if_pos h2] at h
      exact absurd h (by simp)
    · rw [if_neg h2] at h
      injection h with h
      subst h
      exact ⟨rfl, by omega, h2, rfl⟩

/-- The spliced-in sequence of `createTempoChange` is the ordered insertion
of the new event into the sorted sequence, hence sorted. -/
theorem inserted_sorted {l : List TempoEvent} (e : TempoEvent) (hs : sortedTicks l) :
    sortedTicks (l.take (geIndex e.ticks l) ++ e :: l.drop (geIndex e.ticks l)) := by
  rw [splice_eq_orderedInsert]
  exact List.Sorted.orderedInsert e l hs

/-- Inserting at the `ge` position keeps a tick-0 head (or creates one). -/
theorem inserted_firstTickZero {l : List TempoEvent} (e : TempoEvent)
    (h0 : firstTickZero l) (hnil : l = [] → e.ticks = 0) :
    firstTickZero (l.take (geIndex e.ticks l) ++ e :: l.drop (geIndex e.ticks l)) := by
  cases l with
  | nil =>
    show e.ticks = 0
    exact hnil rfl
  | cons x xs =>
    rw [geIndex]
    by_cases hx : e.ticks ≤ x.ticks
    · rw [if_pos hx]
      show e.ticks = 0
      have hx0 : x.ticks = 0 := h0
      omega
    · rw [if_neg hx, List.take_succ_cons, List.drop_succ_cons]
      show x.ticks = 0
      exact h0

theorem createTempoChange_invariant {s : Song} {t : ℕ} {b : ℚ} {s' : Song}
    (hinv : TempoInvariant (s.PPQ : ℚ) s.tempos)
    (h : s.createTempoChange t b = .ok s') :
    TempoInvariant (s'.PPQ : ℚ) s'.tempos := by
  obtain ⟨hppq, hp1, hguard, htempos⟩ := createTempoChange_ok_parts h
  obtain ⟨h0, hs, -⟩ := hinv
  rw [hppq, htempos]
  apply retimingTempoEvents_invariant
  have hsorted : sortedTicks (s.tempos.take (geIndex t s.tempos) ++
      { ticks := t, bpm := b, time := tickToSecondsImpl t s.tempos (s.PPQ : ℚ) } ::
      s.tempos.drop (geIndex t s.tempos)) :=
    inserted_sorted
      { ticks := t, bpm := b, time := tickToSecondsImpl t s.tempos (s.PPQ : ℚ) } hs
  rw [sortByTicks_of_sorted hsorted]
  exact inserted_firstTickZero
    { ticks := t, bpm := b, time := tickToSecondsImpl t s.tempos (s.PPQ : ℚ) } h0
    (fun hn => by
      by_contra ht
      exact hguard ⟨hn, ht⟩)

/-- The canonical one-event sequence installed by `overwriteTempoChanges`
satisfies the invariant. -/
theorem invariant_singleton (res : ℚ) (b : ℚ) :
    TempoInvariant res [{ ticks := 0, bpm := b, time := 0 }] := by
  refine ⟨rfl, List.sorted_singleton _, ?_⟩
  intro i
  rcases i with ⟨iv, hi⟩
  have hiv : iv = 0 := by simpa using hi
  subst hiv
  show (0 : ℚ) = tickToSecondsImpl 0 _ res
  rw [tickToSecondsImpl_zero]

theorem foldlM_createTempo_invariant :
    ∀ (evs : List TempoEvent) (s s' : Song),
      evs.foldlM (fun acc e => acc.createTempoChange e.ticks e.bpm) s = .ok s' →
      TempoInvariant (s.PPQ : ℚ) s.tempos →
      TempoInvariant (s'.PPQ : ℚ) s'.tempos := by
  intro evs
  induction evs with
  | nil =>
    intro s s' h hinv
    rw [List.foldlM_nil] at h
    have h2 : (Except.ok s : Except SongError Song) = .ok s' := h
    injection h2 with h2
    rw [← h2]
    exact hinv
  | cons e rest ih =>
    intro s s' h hinv
    rw [List.foldlM_cons] at h
    rcases hstep : s.createTempoChange e.ticks e.bpm with e' | s1
    · rw [hstep, except_error_bind] at h
      simp at h
    · rw [hstep, except_ok_bind] at h
      exact ih s1 s' h (createTempoChange_invariant hinv hstep)

theorem overwriteTempoChanges_invariant {s : Song} {evs : List TempoEvent} {s' : Song}
    (h : s.overwriteTempoChanges evs = .ok s') :
    TempoInvariant (s'.PPQ : ℚ) s'.tempos := by
  rw [Song.overwriteTempoChanges] at h
  by_cases h1 : evs = []
  · rw [if_pos h1] at h
    simp at h
  · rw [if_neg h1] at h
    rcases hsort : sortByTicks evs with _ | ⟨f, rest⟩
    · simp only [hsort] at h
      simp at h
    · simp only [hsort] at h
      by_cases h2 : 0 < f.ticks
      · rw [if_pos h2] at h
        simp at h
      · rw [if_neg h2] at h
        exact foldlM_createTempo_invariant rest _ s' h (invariant_singleton _ _)

theorem updateTempo_invariant (s : Song) (i : ℕ) (b : ℚ)
    (hinv : TempoInvariant (s.PPQ : ℚ) s.tempos) :
    TempoInvariant (((s.updateTempo i b).PPQ : ℚ)) (s.updateTempo i b).tempos := by
  obtain ⟨h0, hs, -⟩ := hinv
  rw [Song.updateTempo]
  rcases hI : s.tempos[i]? with _ | e
  · simp only [hI]
    apply retimingTempoEvents_invariant
    rw [sortByTicks_of_sorted hs]
    exact h0
  · simp only [hI]
    have hmap : (s.tempos.set i { e with bpm := b }).map (fun x => x.ticks)
        = s.tempos.map (fun x => x.ticks) := by
      rw [List.map_set]
      show (s.tempos.map (fun x => x.ticks)).set i e.ticks = _
      apply set_self_of_getElem?
      rw [List.getElem?_map, hI]
      rfl
    have hs2 : sortedTicks (s.tempos.set i { e with bpm := b }) :=
      sortedTicks_of_map_eq hmap.symm hs
    apply retimingTempoEvents_invariant
    rw [sortByTicks_of_sorted hs2]
    exact firstTickZero_of_map_eq hmap.symm h0

/-- C6 (amended): the tempo-sequence invariant — non-empty sequences start at
tick 0, are sorted ascending by tick (duplicate ticks can occur, see the
counterexample), and every stored time is the integration of the preceding
segments — is preserved by `createTempoChange`, `overwriteTempoChanges`,
`updateTempo` and the tempo path of `importMIDI`. -/
theorem c6_tempo_invariant_preserved :
    (∀ (s : Song) (t : ℕ) (b : ℚ) (s' : Song),
      TempoInvariant (s.PPQ : ℚ) s.tempos →
      s.createTempoChange t b = .ok s' →
      TempoInvariant (s'.PPQ : ℚ) s'.tempos) ∧
    (∀ (s : Song) (evs : List TempoEvent) (s' : Song),
      s.overwriteTempoChanges evs = .ok s' →
      TempoInvariant (s'.PPQ : ℚ) s'.tempos) ∧
    (∀ (s : Song) (i : ℕ) (b : ℚ),
      TempoInvariant (s.PPQ : ℚ) s.tempos →
      TempoInvariant (((s.updateTempo i b).PPQ : ℚ)) (s.updateTempo i b).tempos) ∧
    (∀ (s : Song) (insertOffset : ℕ) (sourcePPQ : ℚ) (raws : List RawTempoEvent)
      (overwrite : Bool) (s' : Song),
      TempoInvariant (s.PPQ : ℚ) s.tempos →
      s.importMIDITempos insertOffset sourcePPQ raws overwrite = .ok s' →
      TempoInvariant (s'.PPQ : ℚ) s'.tempos) := by
  refine ⟨fun s t b s' hinv h => createTempoChange_invariant hinv h,
    fun s evs s' h => overwriteTempoChanges_invariant h,
    fun s i b hinv => updateTempo_invariant s i b hinv,
    fun s off src raws ow s' hinv h => ?_⟩
  rw [Song.importMIDITempos] at h
  cases ow with
  | true =>
    rw [if_pos rfl] at h
    exact overwriteTempoChanges_invariant h
  | false =>
    rw [if_neg (by simp)] at h
    have h2 : (Except.ok s : Except SongError Song) = .ok s' := h
    injection h2 with h2
    rw [← h2]
    exact hinv

/-- C6 counterexample: inserting a tempo change at the already occupied tick 0
leaves two events with the same tick in the sequence, so the claimed
"no duplicate ticks" clause of the invariant does not hold on the code. -/
theorem c6_counterexample :
    demoSongTempo2.createTempoChange 0 90 = .ok demoSongC6 ∧
    demoSongC6.tempos.map (fun e => e.ticks) = [0, 0] ∧
    ¬ (demoSongC6.tempos.map (fun e => e.ticks)).Nodup := by
  refine ⟨rfl, rfl, by decide⟩

/-- C6 witness: the preserved (amended) invariant at a concrete insertion. -/
theorem c6_witness :
    TempoInvariant ((demoSongTempo2.PPQ : ℚ)) demoSongTempo2.tempos ∧
    demoSongTempo2.createTempoChange 0 90 = .ok demoSongC6 ∧
    TempoInvariant ((demoSongC6.PPQ : ℚ)) demoSongC6.tempos :=
  ⟨by decide, rfl,
   c6_tempo_invariant_preserved.1 demoSongTempo2 0 90 demoSongC6 (by decide) rfl⟩

/-- C2 (amended): creating a tempo change at a tick `t` already occupied
keeps every pre-existing event (nothing is removed), and the new event is
inserted at the first position whose tick is ≥ `t` — that is, it is ordered
BEFORE every pre-existing event at tick `t`, not after. -/
theorem c2_insert_at_existing_tick (s : Song) (t : ℕ) (b : ℚ)
    (hppq : 1 ≤ s.PPQ) (hs : sortedTicks s.tempos)
    (hmem : ∃ e ∈ s.tempos, e.ticks = t) :
    ∃ s', s.createTempoChange t b = .ok s' ∧
      s'.tempos.map tickBpm =
        (s.tempos.takeWhile (fun e => decide (e.ticks < t))).map tickBpm ++
          (t, b) :: (s.tempos.dropWhile (fun e => decide (e.ticks < t))).map tickBpm ∧
      (∀ e ∈ s.tempos, e.ticks = t →
        e ∈ s.tempos.dropWhile (fun e => decide (e.ticks < t))) := by
  obtain ⟨e0, he0mem, he0t⟩ := hmem
  have hne : s.tempos ≠ [] := by
    intro hc
    rw [hc] at he0mem
    simp at he0mem
  have h1 : ¬ s.PPQ ≤ 0 := by omega
  have h2 : ¬ (s.tempos = [] ∧ t ≠ 0) := by tauto
  have hsorted : sortedTicks (s.tempos.take (geIndex t s.tempos) ++
      { ticks := t, bpm := b, time := tickToSecondsImpl t s.tempos (s.PPQ : ℚ) } ::
      s.tempos.drop (geIndex t s.tempos)) :=
    inserted_sorted
      { ticks := t, bpm := b, time := tickToSecondsImpl t s.tempos (s.PPQ : ℚ) } hs
  have hok : s.createTempoChange t b = .ok { s with
      tempos := retimingTempoEvents (s.PPQ : ℚ)
        (s.tempos.take (geIndex t s.tempos) ++
          { ticks := t, bpm := b, time := tickToSecondsImpl t s.tempos (s.PPQ : ℚ) } ::
          s.tempos.drop (geIndex t s.tempos)) } := by
    rw [Song.createTempoChange, if_neg h1, if_neg h2]
  refine ⟨_, hok, ?_, ?_⟩
  · show (retimingTempoEvents (s.PPQ : ℚ) _).map tickBpm = _
    rw [retimingTempoEvents]
    rw [retimeUpTo_map]
    rw [sortByTicks_of_sorted hsorted]
    rw [List.map_append, List.map_cons, geIndex_take, geIndex_drop]
    rfl
  · intro e he het
    have hsplit := List.takeWhile_append_dropWhile (fun x => decide (x.ticks < t)) s.tempos
    rw [← hsplit] at he
    rcases List.mem_append.mp he with h | h
    · have := List.mem_takeWhile_imp h
      simp only [decide_eq_true_eq] at this
      omega
    · exact h

/-- C2 counterexample: inserting a 60 BPM change at the occupied tick 0 of a
one-event song places the new event at index 0, BEFORE the pre-existing
tick-0 event (index 1) — not after it as the claim states. -/
theorem c2_counterexample :
    demoSongTempo.createTempoChange 0 60 = .ok demoSongC2 ∧
    demoSongC2.tempos.map tickBpm = [(0, 60), (0, 120)] ∧
    demoSongC2.tempos.head?.map tickBpm = some (0, 60) :=
  ⟨rfl, rfl, rfl⟩

/-- C2 witness: the amended statement applied at a concrete song. -/
theorem c2_witness :
    ∃ s', demoSongTempo.createTempoChange 0 77 = .ok s' ∧
      s'.tempos.map tickBpm =
        (demoSongTempo.tempos.takeWhile (fun e => decide (e.ticks < 0))).map tickBpm ++
          (0, 77) :: (demoSongTempo.tempos.dropWhile
            (fun e => decide (e.ticks < 0))).map tickBpm ∧
      (∀ e ∈ demoSongTempo.tempos, e.ticks = 0 →
        e ∈ demoSongTempo.tempos.dropWhile (fun e => decide (e.ticks < 0))) :=
  c2_insert_at_existing_tick demoSongTempo 0 77 (by decide) (by decide) (by decide)

/-- A successful `createTempoChange` at a non-zero tick keeps a canonical
tick-0/time-0 head event intact. -/
theorem createTempoChange_head {s : Song} {bb : ℚ} (t : ℕ) (b : ℚ)
    (hinv : TempoInvariant (s.PPQ : ℚ) s.tempos)
    (hhead : s.tempos.head? = some { ticks := 0, bpm := bb, time := 0 })
    (hppq : 1 ≤ s.PPQ) (ht : t ≠ 0) :
    ∃ s', s.createTempoChange t b = .ok s' ∧ s'.PPQ = s.PPQ ∧
      TempoInvariant ((s'.PPQ : ℚ)) s'.tempos ∧
      s'.tempos.head? = some { ticks := 0, bpm := bb, time := 0 } := by
  obtain ⟨x, xs, hlx⟩ : ∃ x xs, s.tempos = x :: xs := by
    cases hl : s.tempos with
    | nil => rw [hl, List.head?_nil] at hhead; exact absurd hhead (by simp)
    | cons x xs => exact ⟨x, xs, rfl⟩
  have hx : x = { ticks := 0, bpm := bb, time := 0 } := by
    rw [hlx, List.head?_cons] at hhead
    injection hhead
  have h1 : ¬ s.PPQ ≤ 0 := by omega
  have h2 : ¬ (s.tempos = [] ∧ t ≠ 0) := by
    rw [hlx]; simp
  have hok : s.createTempoChange t b = .ok { s with
      tempos := retimingTempoEvents (s.PPQ : ℚ)
        (s.tempos.take (geIndex t s.tempos) ++
          { ticks := t, bpm := b, time := tickToSecondsImpl t s.tempos (s.PPQ : ℚ) } ::
          s.tempos.drop (geIndex t s.tempos)) } := by
    rw [Song.createTempoChange, if_neg h1, if_neg h2]
  have hsorted : sortedTicks (s.tempos.take (geIndex t s.tempos) ++
      { ticks := t, bpm := b, time := tickToSecondsImpl t s.tempos (s.PPQ : ℚ) } ::
      s.tempos.drop (geIndex t s.tempos)) :=
    inserted_sorted
      { ticks := t, bpm := b, time := tickToSecondsImpl t s.tempos (s.PPQ : ℚ) }
      hinv.2.1
  have hxt : ¬ (t ≤ x.ticks) := by
    rw [hx]
    simpa using ht
  have hins : s.tempos.take (geIndex t s.tempos) ++
      { ticks := t, bpm := b, time := tickToSecondsImpl t s.tempos (s.PPQ : ℚ) } ::
      s.tempos.drop (geIndex t s.tempos) =
      x :: (xs.take (geIndex t xs) ++
        { ticks := t, bpm := b, time := tickToSecondsImpl t s.tempos (s.PPQ : ℚ) } ::
        xs.drop (geIndex t xs)) := by
    rw [hlx, geIndex, if_neg hxt, List.take_succ_cons, List.drop_succ_cons,
      List.cons_append]
  refine ⟨_, hok, rfl, createTempoChange_invariant hinv hok, ?_⟩
  show (retimingTempoEvents (s.PPQ : ℚ) _).head? = _
  rw [retimingTempoEvents]
  rw [sortByTicks_of_sorted hsorted]
  rw [List.head?_eq_getElem?]
  have hlen0 : 0 < (s.tempos.take (geIndex t s.tempos) ++
      { ticks := t, bpm := b, time := tickToSecondsImpl t s.tempos (s.PPQ : ℚ) } ::
      s.tempos.drop (geIndex t s.tempos)).length := by
    rw [hins]
    simp
  have hget0 : (s.tempos.take (geIndex t s.tempos) ++
      { ticks := t, bpm := b, time := tickToSecondsImpl t s.tempos (s.PPQ : ℚ) } ::
      s.tempos.drop (geIndex t s.tempos))[0]? = some x := by
    rw [hins]
    simp
  rw [retimeUpTo_getElem?_stable _ _ _ 0 hlen0]
  rw [retimeUpTo_getElem?_succ _ _ 0 x hlen0 hget0]
  rw [hx]
  rw [tickToSecondsImpl_zero]

theorem foldlM_createTempo_head :
    ∀ (evs : List TempoEvent) (s : Song) (bb : ℚ),
      1 ≤ s.PPQ → TempoInvariant (s.PPQ : ℚ) s.tempos →
      s.tempos.head? = some { ticks := 0, bpm := bb, time := 0 } →
      (∀ e ∈ evs, e.ticks ≠ 0) →
      ∃ s', evs.foldlM (fun acc e => acc.createTempoChange e.ticks e.bpm) s = .ok s' ∧
        s'.tempos.head? = some { ticks := 0, bpm := bb, time := 0 } := by
  intro evs
  induction evs with
  | nil =>
    intro s bb hppq hinv hhead hall
    exact ⟨s, by rw [List.foldlM_nil]; rfl, hhead⟩
  | cons e rest ih =>
    intro s bb hppq hinv hhead hall
    obtain ⟨s1, hok, hppq1, hinv1, hhead1⟩ :=
      createTempoChange_head e.ticks e.bpm hinv hhead hppq (hall e (by simp))
    obtain ⟨s', hfold, hhead'⟩ := ih s1 bb (by omega) hinv1 hhead1
      (fun x hx => hall x (by simp [hx]))
    refine ⟨s', ?_, hhead'⟩
    rw [List.foldlM_cons, hok, except_ok_bind, hfold]

/-- C5 (amended): for a non-empty input whose stably-sorted order starts with
the single tick-0 event `e0`, `overwriteTempoChanges` succeeds and the first
stored event has tick 0, time 0 and the BPM of `e0` — the earliest input
event.  (When several inputs share tick 0 the head instead carries the BPM of
the LAST tick-0 input, see the counterexample, which forces the
single-tick-0 proviso.)  The call fails on an empty input, and fails when no
input event is at tick 0 (all ticks are positive). -/
theorem c5_overwrite_first_event_canonical (s : Song) (input : List TempoEvent)
    (e0 : TempoEvent) (rest : List TempoEvent)
    (hppq : 1 ≤ s.PPQ) (hsort : sortByTicks input = e0 :: rest)
    (h0 : e0.ticks = 0) (huniq : ∀ e ∈ rest, e.ticks ≠ 0) :
    (∃ s', s.overwriteTempoChanges input = .ok s' ∧
      s'.tempos.head? = some { ticks := 0, bpm := e0.bpm, time := 0 }) ∧
    (∀ s2 : Song, s2.overwriteTempoChanges [] = .error .cannotClearTempoEvents) ∧
    (∀ (s2 : Song) (evs : List TempoEvent), evs ≠ [] → (∀ e ∈ evs, e.ticks ≠ 0) →
      s2.overwriteTempoChanges evs = .error .firstTempoNeedsStartZero) := by
  refine ⟨?_, ?_, ?_⟩
  · have hne : input ≠ [] := by
      intro hc
      rw [hc] at hsort
      simp [sortByTicks] at hsort
    have hguard : ¬ 0 < e0.ticks := by omega
    obtain ⟨s', hfold, hhead⟩ :=
      foldlM_createTempo_head rest { s with tempos := [{ ticks := 0, bpm := e0.bpm, time := 0 }] }
        e0.bpm hppq (invariant_singleton _ _) rfl huniq
    refine ⟨s', ?_, hhead⟩
    rw [Song.overwriteTempoChanges, if_neg hne]
    simp only [hsort]
    rw [if_neg hguard]
    exact hfold
  · intro s2
    rw [Song.overwriteTempoChanges, if_pos rfl]
  · intro s2 evs hne hall
    rw [Song.overwriteTempoChanges, if_neg hne]
    rcases hs2 : sortByTicks evs with _ | ⟨f, r⟩
    · exfalso
      have : evs.length = 0 := by
        have hperm := List.perm_insertionSort ticksLE evs
        have := hperm.length_eq
        rw [show List.insertionSort ticksLE evs = sortByTicks evs from rfl, hs2] at this
        simpa using this.symm
      exact hne (List.length_eq_zero.mp this)
    · simp only [hs2]
      have hf : f ∈ evs := by
        have hperm := List.perm_insertionSort ticksLE evs
        have : f ∈ sortByTicks evs := by rw [hs2]; simp
        exact hperm.subset this
      rw [if_pos (Nat.pos_of_ne_zero (hall f hf))]

/-- C5 counterexample: overwriting with two tick-0 inputs (earliest has BPM
100, the second BPM 200) stores a first event carrying BPM 200, not the BPM
of the earliest input event. -/
theorem c5_counterexample :
    demoSongTempo.overwriteTempoChanges demoOverwriteInput = .ok demoSongC5 ∧
    demoOverwriteInput.head?.map (fun e => e.bpm) = some 100 ∧
    demoSongC5.tempos.head?.map (fun e => e.bpm) = some 200 ∧
    (200 : ℚ) ≠ 100 := by
  refine ⟨rfl, rfl, rfl, by norm_num⟩

/-- C5 witness: a two-event overwrite with a single tick-0 input. -/
theorem c5_witness :
    ∃ s', demoSongTempo.overwriteTempoChanges demoC5Input = .ok s' ∧
      s'.tempos.head? = some { ticks := 0, bpm := 100, time := 0 } :=
  (c5_overwrite_first_event_canonical demoSongTempo demoC5Input ⟨0, 100, 7⟩
    [⟨480, 60, 9⟩] (by decide) (by decide) (by decide) (by decide)).1

/-- C9 witness: the characterization instantiated at a concrete song. -/
theorem c9_witness :
    (∃ e, demoSongNoCtx.createTempoChange 5 120 = .error e) ↔
      (¬ 1 ≤ demoSongNoCtx.PPQ ∨ (demoSongNoCtx.tempos = [] ∧ 5 ≠ 0)) :=
  c9_create_tempo_error_iff demoSongNoCtx 5 120

/-! Round-trip stability of the two conversions (claim C8). -/

theorem timesConsistent_getElem? {res : ℚ} {l : List TempoEvent}
    (hc : timesConsistent res l) :
    ∀ (i : ℕ) (e : TempoEvent), l[i]? = some e →
      e.time = tickToSecondsImpl e.ticks l res := by
  intro i e he
  have hi : i < l.length := by
    by_contra hcon
    rw [List.getElem?_eq_none (by omega)] at he
    simp at he
  have h2 := hc ⟨i, hi⟩
  simp only [List.get_eq_getElem] at h2
  rw [List.getElem?_eq_getElem hi] at he
  injection he with he
  rw [he] at h2
  exact h2

/-- Locating the base segment of a tick-to-seconds conversion at a stored
event with non-zero tick: it exists, lies strictly before the event, and the
conversion is the linear extrapolation from it. -/
theorem tickToSeconds_base (res : ℚ) {l : List TempoEvent} (hs : sortedTicks l)
    (h0 : firstTickZero l) {i : ℕ} {e : TempoEvent}
    (hi : l[i]? = some e) (ht : e.ticks ≠ 0) :
    ∃ (b : ℕ) (eb : TempoEvent),
      lastIdxP (fun x => decide (x.ticks < e.ticks)) l = some b ∧
      l[b]? = some eb ∧ b < i ∧ eb.ticks < e.ticks ∧
      tickToSecondsImpl e.ticks l res =
        eb.time + ((e.ticks : ℚ) - (eb.ticks : ℚ)) /
          tempoBPMToTicksPerSecond eb.bpm res := by
  obtain ⟨x, xs, hlx⟩ : ∃ x xs, l = x :: xs := by
    cases l with
    | nil => simp at hi
    | cons x xs => exact ⟨x, xs, rfl⟩
  have hx0 : x.ticks = 0 := by rw [hlx] at h0; exact h0
  have hxget : l[0]? = some x := by rw [hlx]; simp
  obtain ⟨b, hb⟩ := lastIdxP_isSome_of (fun y => decide (y.ticks < e.ticks)) l 0 x hxget
    (by simp [hx0]; omega)
  have hblen := lastIdxP_lt_length _ l b hb
  rcases hbe : l[b]? with _ | eb
  · rw [List.getElem?_eq_none_iff] at hbe
    omega
  have hebt : eb.ticks < e.ticks := by
    simpa using lastIdxP_sat (fun y => decide (y.ticks < e.ticks)) l b eb hb hbe
  have hbi : b < i := by
    by_contra hc
    have := sortedTicks_mono hs i b e eb (by omega) hi hbe
    omega
  refine ⟨b, eb, hb, hbe, hbi, hebt, ?_⟩
  rw [tickToSecondsImpl, if_neg ht]
  dsimp only
  rw [hb]
  simp only [Option.getD_some]
  rw [hbe]

theorem times_nonneg (res : ℚ) {l : List TempoEvent} (hs : sortedTicks l)
    (h0 : firstTickZero l) (hc : timesConsistent res l)
    (hbpm : ∀ e ∈ l, 0 < e.bpm) (hres : 0 < res) :
    ∀ (i : ℕ) (e : TempoEvent), l[i]? = some e → 0 ≤ e.time := by
  intro i
  induction i using Nat.strong_induction_on with
  | _ i ih =>
    intro e he
    have htime := timesConsistent_getElem? hc i e he
    by_cases ht : e.ticks = 0
    · rw [htime, ht, tickToSecondsImpl_zero]
    · obtain ⟨b, eb, hb, hbe, hbi, hebt, hform⟩ := tickToSeconds_base res hs h0 he ht
      rw [htime, hform]
      have h1 : 0 ≤ eb.time := ih b hbi eb hbe
      have h2 : (0 : ℚ) < ((e.ticks : ℚ) - (eb.ticks : ℚ)) := by
        have hcast : (eb.ticks : ℚ) < (e.ticks : ℚ) := by exact_mod_cast hebt
        linarith
      have h3 : 0 < tempoBPMToTicksPerSecond eb.bpm res := by
        have := hbpm eb (List.getElem?_mem hbe)
        rw [tempoBPMToTicksPerSecond]
        positivity
      positivity

theorem lastIdxP_ge_of_sat (p : TempoEvent → Bool) (l : List TempoEvent) (b : ℕ)
    (hb : lastIdxP p l = some b) (j : ℕ) (ej : TempoEvent)
    (hj : l[j]? = some ej) (hpj : p ej = true) : j ≤ b := by
  by_contra hc
  have := lastIdxP_last p l b hb j ej (by omega) hj
  rw [hpj] at this
  simp at this

theorem times_ge_after (res : ℚ) {l : List TempoEvent} (hs : sortedTicks l)
    (h0 : firstTickZero l) (hc : timesConsistent res l)
    (hbpm : ∀ e ∈ l, 0 < e.bpm) (hres : 0 < res)
    {t : ℕ} (ht : t ≠ 0) {j : ℕ} {ej : TempoEvent}
    (hj : l[j]? = some ej)
    (hjlast : lastIdxP (fun x => decide (x.ticks < t)) l = some j) :
    ∀ (m : ℕ) (em : TempoEvent), j < m → l[m]? = some em →
      tickToSecondsImpl t l res ≤ em.time := by
  have hjts : ej.ticks < t := by
    simpa using lastIdxP_sat _ l j ej hjlast hj
  have hsval : tickToSecondsImpl t l res =
      ej.time + ((t : ℚ) - (ej.ticks : ℚ)) / tempoBPMToTicksPerSecond ej.bpm res := by
    rw [tickToSecondsImpl, if_neg ht]
    dsimp only
    rw [hjlast]
    simp only [Option.getD_some]
    rw [hj]
  intro m
  induction m using Nat.strong_induction_on with
  | _ m ih =>
    intro em hjm hem
    have hemt : ¬ (em.ticks < t) := by
      have := lastIdxP_last _ l j hjlast m em hjm hem
      simpa using this
    have hemt0 : em.ticks ≠ 0 := by omega
    have htime := timesConsistent_getElem? hc m em hem
    obtain ⟨b, eb, hb, hbe, hbm, hebt, hform⟩ := tickToSeconds_base res hs h0 hem hemt0
    have hjb : j ≤ b := by
      apply lastIdxP_ge_of_sat _ l b hb j ej hj
      simp only [decide_eq_true_eq]
      omega
    rcases Nat.eq_or_lt_of_le hjb with rfl | hjb2
    · rw [hj] at hbe
      injection hbe with hbe
      rw [← hbe] at hform
      rw [htime, hform, hsval]
      have h3 : 0 < tempoBPMToTicksPerSecond ej.bpm res := by
        have := hbpm ej (List.getElem?_mem hj)
        rw [tempoBPMToTicksPerSecond]
        positivity
      have hle : (t : ℚ) - (ej.ticks : ℚ) ≤ (em.ticks : ℚ) - (ej.ticks : ℚ) := by
        have hcast : (t : ℚ) ≤ (em.ticks : ℚ) := by exact_mod_cast (by omega : t ≤ em.ticks)
        linarith
      have := (div_le_div_iff_of_pos_right h3).mpr hle
      linarith
    · have hsb : tickToSecondsImpl t l res ≤ eb.time := ih b hbm eb hjb2 hbe
      rw [htime, hform]
      have h3 : 0 < tempoBPMToTicksPerSecond eb.bpm res := by
        have := hbpm eb (List.getElem?_mem hbe)
        rw [tempoBPMToTicksPerSecond]
        positivity
      have h2 : (0 : ℚ) ≤ ((em.ticks : ℚ) - (eb.ticks : ℚ)) / tempoBPMToTicksPerSecond eb.bpm res := by
        have hcast : (eb.ticks : ℚ) < (em.ticks : ℚ) := by exact_mod_cast hebt
        have h4 : (0 : ℚ) ≤ (em.ticks : ℚ) - (eb.ticks : ℚ) := by linarith
        positivity
      linarith

/-- C8: when the tempo times have been derived by the engine (the invariant
holds), the sequence is non-empty, the resolution is set and all BPMs are
positive, the round trip `secondsToTick (tickToSeconds t)` returns `t`
exactly in the rational model — in particular it is within one tick, as the
claim states; `secondsToTick` rounds to the nearest integer tick by
construction (its result is `round` of the extrapolation). -/
theorem c8_round_trip_within_one_tick (s : Song)
    (hinv : TempoInvariant ((s.PPQ : ℚ)) s.tempos) (hne : s.tempos ≠ [])
    (hppq : 1 ≤ s.PPQ) (hbpm : ∀ e ∈ s.tempos, 0 < e.bpm) :
    ∀ t : ℕ, |s.secondsToTick (s.tickToSeconds t) - (t : ℤ)| ≤ 1 := by
  obtain ⟨h0, hs, hc⟩ := hinv
  have hres : (0 : ℚ) < (s.PPQ : ℚ) := by exact_mod_cast (by omega : 0 < s.PPQ)
  intro t
  by_cases ht : t = 0
  · subst ht
    rw [Song.tickToSeconds, tickToSecondsImpl_zero, Song.secondsToTick,
      secondsToTickImpl, if_pos rfl]
    simp
  · rw [Song.tickToSeconds, Song.secondsToTick]
    obtain ⟨x, xs, hlx⟩ : ∃ x xs, s.tempos = x :: xs := by
      cases hl : s.tempos with
      | nil => exact absurd hl hne
      | cons x xs => exact ⟨x, xs, rfl⟩
    have hx0 : x.ticks = 0 := by rw [hlx] at h0; exact h0
    have hxget : s.tempos[0]? = some x := by rw [hlx]; simp
    obtain ⟨j, hjlast⟩ := lastIdxP_isSome_of (fun e => decide (e.ticks < t)) s.tempos 0 x
      hxget (by simp [hx0]; omega)
    have hjlen := lastIdxP_lt_length _ s.tempos j hjlast
    rcases hj : s.tempos[j]? with _ | ej
    · rw [List.getElem?_eq_none_iff] at hj
      omega
    have hjts : ej.ticks < t := by
      simpa using lastIdxP_sat _ s.tempos j ej hjlast hj
    have htps : 0 < tempoBPMToTicksPerSecond ej.bpm (s.PPQ : ℚ) := by
      have := hbpm ej (List.getElem?_mem hj)
      rw [tempoBPMToTicksPerSecond]
      positivity
    have hsval : tickToSecondsImpl t s.tempos (s.PPQ : ℚ) =
        ej.time + ((t : ℚ) - (ej.ticks : ℚ)) /
          tempoBPMToTicksPerSecond ej.bpm (s.PPQ : ℚ) := by
      rw [tickToSecondsImpl, if_neg ht]
      dsimp only
      rw [hjlast]
      simp only [Option.getD_some]
      rw [hj]
    have hd : (0 : ℚ) < ((t : ℚ) - (ej.ticks : ℚ)) /
        tempoBPMToTicksPerSecond ej.bpm (s.PPQ : ℚ) := by
      have hcast : (ej.ticks : ℚ) < (t : ℚ) := by exact_mod_cast hjts
      have h4 : (0 : ℚ) < (t : ℚ) - (ej.ticks : ℚ) := by linarith
      positivity
    have hejnn : 0 ≤ ej.time := times_nonneg (s.PPQ : ℚ) hs h0 hc hbpm hres j ej hj
    have hspos : 0 < tickToSecondsImpl t s.tempos (s.PPQ : ℚ) := by
      rw [hsval]
      linarith
    have htlast : lastIdxP
        (fun e => decide (e.time < tickToSecondsImpl t s.tempos (s.PPQ : ℚ)))
        s.tempos = some j := by
      apply lastIdxP_of_sat_last _ s.tempos j ej hj
      · simp only [decide_eq_true_eq]
        rw [hsval]
        linarith
      · intro m e' hm he'
        have := times_ge_after (s.PPQ : ℚ) hs h0 hc hbpm hres ht hj hjlast m e' hm he'
        simp only [decide_eq_false_iff_not, not_lt]
        exact this
    rw [secondsToTickImpl, if_neg (ne_of_gt hspos)]
    dsimp only
    rw [htlast]
    simp only [Option.getD_some]
    rw [hj]
    dsimp only
    have hdelta : tickToSecondsImpl t s.tempos (s.PPQ : ℚ) - ej.time =
        ((t : ℚ) - (ej.ticks : ℚ)) / tempoBPMToTicksPerSecond ej.bpm (s.PPQ : ℚ) := by
      rw [hsval]
      ring
    rw [hdelta, div_mul_cancel₀ _ (ne_of_gt htps)]
    have hsum : (ej.ticks : ℚ) + ((t : ℚ) - (ej.ticks : ℚ)) = (t : ℚ) := by ring
    rw [hsum, round_natCast]
    simp

/-- C8 witness: a two-segment song (120 BPM then 60 BPM at tick 480,
resolution 480) round-trips tick 720 within one tick. -/
theorem c8_witness :
    |demoSongTwoTempo.secondsToTick (demoSongTwoTempo.tickToSeconds 720) - (720 : ℤ)| ≤ 1 := by
  apply c8_round_trip_within_one_tick demoSongTwoTempo
  · refine ⟨by decide, by decide, ?_⟩
    intro i
    rcases i with ⟨iv, hilt⟩
    have hlt2 : iv < 2 := by simpa [demoSongTwoTempo, Song.empty] using hilt
    interval_cases iv
    · show (0 : ℚ) = tickToSecondsImpl 0 [⟨0, 120, 0⟩, ⟨480, 60, 1/2⟩] ((480 : ℕ) : ℚ)
      rw [tickToSecondsImpl_zero]
    · show (1/2 : ℚ) = tickToSecondsImpl 480 [⟨0, 120, 0⟩, ⟨480, 60, 1/2⟩] ((480 : ℕ) : ℚ)
      rw [tickToSecondsImpl]
      norm_num [lastIdxP, tempoBPMToTicksPerSecond]
  · decide
  · decide
  · decide
